import Mathlib

/-!
# Verification of the uma-rosterview URL encoding (`src/encoding.ts`)

Shallow embedding of the bit-level roster codec: the `BitVector` primitive
(append-only bit writer, positional bit reader, custom Base64 text
conversion), the per-character record codec (`encodeChara` / `decodeChara`)
and the collection codec (`encodeCharas` / `decodeCharas`).

Modelling conventions:
- The JS `bits: number[]` array only ever stores `(value >> i) & 1`, i.e.
  single bits, so it is modelled as `List Bool`.
- JS numbers holding field values are modelled as `Nat`; every theorem about
  encoding carries the documented domain-range hypotheses under which no
  negative intermediate (e.g. `talent_level - 1` for `talent_level = 0`)
  arises, so `Nat` truncated subtraction coincides with the source.
- `BitVector.remaining` is `Int`-valued because the JS read cursor may run
  past the end of the bit array, making `bits.length - readPos` negative.
- `decodeChara` returns the decoded record (or `none`) together with the
  stream, since the JS function mutates the stream it is given.
- The `create_time` (wall clock) and `chara_seed` (`Math.random()`) fields
  populated by `decodeChara` are nondeterministic placeholders; no claim
  refers to them and they are omitted from the record model.
- `decodeCharas` wraps its body in `try/catch`; the modelled body is a total
  function, and the `console.*` calls are output-only diagnostics with no
  effect on the result.
-/

namespace UmaRoster

/-- `{ skill_id, level }` entries of `CharaData.skill_array` (`types.ts`). -/
structure SkillData where
  skill_id : Nat
  level : Nat
deriving DecidableEq, Repr

/-- Parent entries of `CharaData.succession_chara_array` (`types.ts`). -/
structure SuccessionCharaData where
  card_id : Nat
  talent_level : Nat
  factor_id_array : List Nat
  position_id : Nat
deriving DecidableEq, Repr

/-- The character record shape used by the codec (`types.ts`), without the
nondeterministic `create_time` / `chara_seed` placeholder fields. -/
structure CharaData where
  card_id : Nat
  talent_level : Nat
  rarity : Nat
  speed : Nat
  stamina : Nat
  power : Nat
  guts : Nat
  wiz : Nat
  proper_distance_short : Nat
  proper_distance_mile : Nat
  proper_distance_middle : Nat
  proper_distance_long : Nat
  proper_ground_turf : Nat
  proper_ground_dirt : Nat
  proper_running_style_nige : Nat
  proper_running_style_senko : Nat
  proper_running_style_sashi : Nat
  proper_running_style_oikomi : Nat
  factor_id_array : List Nat
  skill_array : List SkillData
  succession_chara_array : List SuccessionCharaData
  support_card_list : List Nat
deriving DecidableEq, Repr

/-- `const ENCODING_VERSION = 2`. -/
def ENCODING_VERSION : Nat := 2

/-- `const BASE64_CHARS = 'ABC...-_'` (custom URL-safe alphabet). -/
def BASE64_CHARS : String :=
  "ABCDEFGHIJKLMNOPQRSTUVWXYZabcdefghijklmnopqrstuvwxyz0123456789-_"

/-- The alphabet as a character list (JS strings are indexed per character). -/
def base64Chars : List Char := BASE64_CHARS.data

/-- The bits appended by one `BitVector.write(value, bitLength)` call:
`(value >> i) & 1` for `i = bitLength-1 .. 0`, i.e. MSB first. -/
def writeBits (value : Nat) : Nat → List Bool
  | 0 => []
  | L + 1 => value.testBit L :: writeBits value L

/-- The read loop `value = (value << 1) | (bits[readPos++] ?? 0)` iterated
over `bitLength` positions starting at `pos`, with accumulator `acc`. -/
def readAccum (bits : List Bool) (pos acc : Nat) : Nat → Nat
  | 0 => acc
  | L + 1 => readAccum bits (pos + 1) (2 * acc + (bits.getD pos false).toNat) L

/-- `class BitVector { private bits: number[] = []; private readPos = 0; }` -/
structure BitVector where
  bits : List Bool
  readPos : Nat
deriving DecidableEq, Repr

namespace BitVector

/-- `write(value, bitLength)`: append `bitLength` bits of `value`, MSB first. -/
def write (bv : BitVector) (value bitLength : Nat) : BitVector :=
  { bv with bits := bv.bits ++ writeBits value bitLength }

/-- `read(bitLength)`: consume `bitLength` bits MSB-first (missing bits read
as 0) and advance the cursor, which may pass the end of the array. -/
def read (bv : BitVector) (bitLength : Nat) : Nat × BitVector :=
  (readAccum bv.bits bv.readPos 0 bitLength,
   { bv with readPos := bv.readPos + bitLength })

/-- `remaining()`: `bits.length - readPos` as a JS number (may be negative). -/
def remaining (bv : BitVector) : Int :=
  (bv.bits.length : Int) - (bv.readPos : Int)

/-- `padToBase64()`: push 0-bits until the length is a multiple of 6. -/
def padToBase64 (bv : BitVector) : BitVector :=
  { bv with bits := bv.bits ++ List.replicate ((6 - bv.bits.length % 6) % 6) false }

/-- `length` getter. -/
def length (bv : BitVector) : Nat := bv.bits.length

end BitVector

/-- The 6-bit grouping loop of `toBase64`: each group of 6 bits (the stream is
padded to a multiple of 6 beforehand, so groups are exact) is folded MSB-first
into a 6-bit value and looked up in the alphabet. -/
def base64Group : List Bool → List Char
  | b0 :: b1 :: b2 :: b3 :: b4 :: b5 :: rest =>
      base64Chars.getD
        (readAccum [b0, b1, b2, b3, b4, b5] 0 0 6) 'A' :: base64Group rest
  | _ => []

namespace BitVector

/-- `toBase64()`: pad to a multiple of 6, then map 6-bit groups through the
alphabet. -/
def toBase64 (bv : BitVector) : String :=
  String.mk (base64Group bv.padToBase64.bits)

/-- `static fromBase64(str)`: for each character, look up its alphabet index
(skipping characters not in the alphabet) and append its 6 bits, MSB first. -/
def fromBase64 (str : String) : BitVector :=
  { bits := str.data.foldl (fun bits c =>
      match base64Chars.findIdx? (fun x => x == c) with
      | none => bits
      | some value => bits ++ writeBits value 6) [],
    readPos := 0 }

end BitVector

/-- The loop body of the parent loop at the end of `encodeChara`. -/
def encodeParent (bv : BitVector) (parent : SuccessionCharaData) : BitVector :=
  let bv := bv.write parent.card_id 20
  let bv := bv.write (parent.talent_level - 1) 3
  let parentFactors := parent.factor_id_array.take 15
  let bv := bv.write parentFactors.length 4
  parentFactors.foldl (fun bv factorId => bv.write factorId 24) bv

/-- `encodeChara(bv, chara)`: append one character record to the stream. -/
def encodeChara (bv : BitVector) (chara : CharaData) : BitVector :=
  -- card_id: 20 bits
  let bv := bv.write chara.card_id 20
  -- talent_level: 3 bits (1-5 stored as 0-4)
  let bv := bv.write (chara.talent_level - 1) 3
  -- Stats: 5 x 11 bits (0-2047)
  let bv := bv.write (min chara.speed 2047) 11
  let bv := bv.write (min chara.stamina 2047) 11
  let bv := bv.write (min chara.power 2047) 11
  let bv := bv.write (min chara.guts 2047) 11
  let bv := bv.write (min chara.wiz 2047) 11
  -- Aptitudes: 10 x 3 bits (1-8 stored as 0-7)
  let bv := bv.write (chara.proper_distance_short - 1) 3
  let bv := bv.write (chara.proper_distance_mile - 1) 3
  let bv := bv.write (chara.proper_distance_middle - 1) 3
  let bv := bv.write (chara.proper_distance_long - 1) 3
  let bv := bv.write (chara.proper_ground_turf - 1) 3
  let bv := bv.write (chara.proper_ground_dirt - 1) 3
  let bv := bv.write (chara.proper_running_style_nige - 1) 3
  let bv := bv.write (chara.proper_running_style_senko - 1) 3
  let bv := bv.write (chara.proper_running_style_sashi - 1) 3
  let bv := bv.write (chara.proper_running_style_oikomi - 1) 3
  -- Factors: 4-bit count + 24-bit IDs (max 15)
  let factors := chara.factor_id_array.take 15
  let bv := bv.write factors.length 4
  let bv := factors.foldl (fun bv factorId => bv.write factorId 24) bv
  -- Skills: 6-bit count + 17-bit entries (16 id + 1 level flag, max 63)
  let skills := chara.skill_array.take 63
  let bv := bv.write skills.length 6
  let bv := skills.foldl (fun bv skill =>
    (bv.write skill.skill_id 16).write (if 1 < skill.level then 1 else 0) 1) bv
  -- Parents: 2-bit count (max 3)
  let parents := chara.succession_chara_array.take 3
  let bv := bv.write parents.length 2
  parents.foldl (fun bv parent => encodeParent bv parent) bv

/-- The factor-reading loop of `decodeChara`: `factorCount` 24-bit reads. -/
def readFactors : BitVector → Nat → List Nat × BitVector
  | bv, 0 => ([], bv)
  | bv, n + 1 =>
      let p := bv.read 24
      let q := readFactors p.2 n
      (p.1 :: q.1, q.2)

/-- The skill-reading loop of `decodeChara`: `skillCount` entries of a 16-bit
id and a 1-bit level flag (`levelFlag ? 2 : 1`). -/
def readSkills : BitVector → Nat → List SkillData × BitVector
  | bv, 0 => ([], bv)
  | bv, n + 1 =>
      let p := bv.read 16
      let q := p.2.read 1
      let r := readSkills q.2 n
      ({ skill_id := p.1, level := if q.1 ≠ 0 then 2 else 1 } :: r.1, r.2)

/-- The parent-reading loop of `decodeChara`, with `i` the loop index (the
decoded `position_id` is `i + 1`). -/
def readParents : BitVector → Nat → Nat → List SuccessionCharaData × BitVector
  | bv, _, 0 => ([], bv)
  | bv, i, n + 1 =>
      let p1 := bv.read 20
      let p2 := p1.2.read 3
      let p3 := p2.2.read 4
      let q := readFactors p3.2 p3.1
      let r := readParents q.2 (i + 1) n
      ({ card_id := p1.1, talent_level := p2.1 + 1,
         factor_id_array := q.1, position_id := i + 1 } :: r.1, r.2)

/-- `decodeChara(bv)`: `null` (without reading) when fewer than 108 bits
remain, otherwise read all fields in write order.  Returns the stream as
well, since the JS function advances the stream it was handed. -/
def decodeChara (bv : BitVector) : Option CharaData × BitVector :=
  if bv.remaining < 108 then (none, bv) -- Minimum bits needed
  else
    let p1 := bv.read 20
    let p2 := p1.2.read 3
    let s1 := p2.2.read 11
    let s2 := s1.2.read 11
    let s3 := s2.2.read 11
    let s4 := s3.2.read 11
    let s5 := s4.2.read 11
    let a1 := s5.2.read 3
    let a2 := a1.2.read 3
    let a3 := a2.2.read 3
    let a4 := a3.2.read 3
    let a5 := a4.2.read 3
    let a6 := a5.2.read 3
    let a7 := a6.2.read 3
    let a8 := a7.2.read 3
    let a9 := a8.2.read 3
    let a10 := a9.2.read 3
    let fc := a10.2.read 4
    let fs := readFactors fc.2 fc.1
    let sc := fs.2.read 6
    let ss := readSkills sc.2 sc.1
    let pc := ss.2.read 2
    let ps := readParents pc.2 0 pc.1
    (some
      { card_id := p1.1
        talent_level := p2.1 + 1
        rarity := 3 -- Default
        speed := s1.1
        stamina := s2.1
        power := s3.1
        guts := s4.1
        wiz := s5.1
        proper_distance_short := a1.1 + 1
        proper_distance_mile := a2.1 + 1
        proper_distance_middle := a3.1 + 1
        proper_distance_long := a4.1 + 1
        proper_ground_turf := a5.1 + 1
        proper_ground_dirt := a6.1 + 1
        proper_running_style_nige := a7.1 + 1
        proper_running_style_senko := a8.1 + 1
        proper_running_style_sashi := a9.1 + 1
        proper_running_style_oikomi := a10.1 + 1
        factor_id_array := fs.1
        skill_array := ss.1
        succession_chara_array := ps.1
        support_card_list := [] }, ps.2)

/-- `encodeCharas(charas)`: version byte, count byte (collection truncated to
255), each record, then Base64 text. -/
def encodeCharas (charas : List CharaData) : String :=
  let bv : BitVector := { bits := [], readPos := 0 }
  let bv := bv.write ENCODING_VERSION 8
  let bv := bv.write (min charas.length 255) 8
  let bv := (charas.take 255).foldl (fun bv chara => encodeChara bv chara) bv
  bv.toBase64

/-- The decode loop of `decodeCharas`: iterate over the declared count,
pushing each successfully decoded record; a failed entry appends nothing
(the JS loop does not break, it simply logs and continues). -/
def decodeLoop : BitVector → List CharaData → Nat → List CharaData
  | _, acc, 0 => acc
  | bv, acc, n + 1 =>
      match decodeChara bv with
      | (some chara, bv') => decodeLoop bv' (acc ++ [chara]) n
      | (none, bv') => decodeLoop bv' acc n

/-- `decodeCharas(encoded)`: read the 8-bit version (compared against
`ENCODING_VERSION` for a warning only) and the 8-bit count, then run the
decode loop.  The surrounding `try/catch` is vacuous for this total body. -/
def decodeCharas (encoded : String) : List CharaData :=
  let bv := BitVector.fromBase64 encoded
  let p := bv.read 8
  let q := p.2.read 8
  decodeLoop q.2 [] q.1

/-! ## Writer denotation and reader consumption lemmas -/

@[simp] theorem writeBits_length (v L : Nat) : (writeBits v L).length = L := by
  induction L with
  | zero => rfl
  | succ L ih => simp [writeBits, ih]

theorem writeBits_succ (v L : Nat) :
    writeBits v (L + 1) = v.testBit L :: writeBits v L := rfl

/-- `writeBits` only looks at the low `L` bits of the value. -/
theorem writeBits_mod (L : Nat) : ∀ v, writeBits (v % 2 ^ L) L = writeBits v L := by
  induction L with
  | zero => intro v; rfl
  | succ L ih =>
      intro v
      have h1 : (v % 2 ^ (L + 1)).testBit L = v.testBit L := by
        rw [Nat.testBit_mod_two_pow]; simp
      have h2 : writeBits (v % 2 ^ (L + 1)) L = writeBits v L := by
        have hm : v % 2 ^ (L + 1) % 2 ^ L = v % 2 ^ L := by
          rw [Nat.mod_mod_of_dvd _ (pow_dvd_pow 2 (by omega))]
        calc writeBits (v % 2 ^ (L + 1)) L
            = writeBits (v % 2 ^ (L + 1) % 2 ^ L) L := (ih _).symm
          _ = writeBits (v % 2 ^ L) L := by rw [hm]
          _ = writeBits v L := ih v
      rw [writeBits_succ, writeBits_succ, h1, h2]

theorem readAccum_zero (bits : List Bool) (pos acc : Nat) :
    readAccum bits pos acc 0 = acc := rfl

theorem readAccum_succ (bits : List Bool) (pos acc L : Nat) :
    readAccum bits pos acc (L + 1)
      = readAccum bits (pos + 1) (2 * acc + (bits.getD pos false).toNat) L := rfl

/-- The reader only sees the bits from the cursor onwards. -/
theorem readAccum_drop (L : Nat) : ∀ (bits : List Bool) (pos acc : Nat),
    readAccum bits pos acc L = readAccum (bits.drop pos) 0 acc L := by
  induction L with
  | zero => intro bits pos acc; rfl
  | succ L ih =>
      intro bits pos acc
      have hd : (bits.drop pos).getD 0 false = bits.getD pos false := by
        rw [List.getD_eq_getElem?_getD, List.getD_eq_getElem?_getD,
          List.getElem?_drop]
        simp
      rw [readAccum_succ, readAccum_succ, hd]
      simp only [Nat.zero_add]
      rw [ih bits (pos + 1), ih (bits.drop pos) 1, List.drop_drop]

/-- Reading `L` bits over a chunk written as `writeBits v L` recovers
`v % 2 ^ L` (onto any accumulator). -/
theorem readAccum_writeBits (L : Nat) : ∀ (v acc : Nat) (rest : List Bool),
    readAccum (writeBits v L ++ rest) 0 acc L = acc * 2 ^ L + v % 2 ^ L := by
  induction L with
  | zero => intro v acc rest; simp [readAccum_zero, Nat.mod_one]
  | succ L ih =>
      intro v acc rest
      rw [writeBits_succ, List.cons_append, readAccum_succ, readAccum_drop]
      simp only [List.getD_cons_zero, List.drop_succ_cons, List.drop_zero]
      rw [ih]
      have hbit : (v.testBit L).toNat = v / 2 ^ L % 2 := by
        rw [Nat.testBit_to_div_mod]
        rcases Nat.mod_two_eq_zero_or_one (v / 2 ^ L) with h | h <;> simp [h]
      have hmod : v % 2 ^ (L + 1) = v / 2 ^ L % 2 * 2 ^ L + v % 2 ^ L := by
        have h1 : v % 2 ^ (L + 1) = v % 2 ^ L + 2 ^ L * (v / 2 ^ L % 2) := by
          rw [Nat.mod_pow_succ]
        rw [h1]; ring
      rw [hbit, hmod, pow_succ]
      ring

/-- Upper bound on any read: `L` bits never exceed `2 ^ L - 1` (onto a zero
accumulator). -/
theorem readAccum_lt (L : Nat) : ∀ (bits : List Bool) (pos acc : Nat),
    readAccum bits pos acc L < (acc + 1) * 2 ^ L := by
  induction L with
  | zero => intro bits pos acc; simp [readAccum_zero]
  | succ L ih =>
      intro bits pos acc
      rw [readAccum_succ]
      calc readAccum bits (pos + 1) (2 * acc + (bits.getD pos false).toNat) L
          < (2 * acc + (bits.getD pos false).toNat + 1) * 2 ^ L := ih _ _ _
        _ ≤ (acc + 1) * 2 ^ (L + 1) := by
            have : (bits.getD pos false).toNat ≤ 1 := Bool.toNat_le _
            rw [pow_succ]
            nlinarith [Nat.pos_pow_of_pos L (show 0 < 2 by norm_num)]

/-- One `read` call consuming exactly a written chunk at the cursor. -/
theorem BitVector.read_chunk (bv : BitVector) {v L : Nat} {rest : List Bool}
    (hs : bv.bits.drop bv.readPos = writeBits v L ++ rest) (hv : v < 2 ^ L) :
    bv.read L = (v, { bv with readPos := bv.readPos + L }) := by
  rw [BitVector.read, readAccum_drop, hs, readAccum_writeBits,
    Nat.mod_eq_of_lt hv]
  simp

/-- After consuming a chunk, the unread suffix is what followed the chunk. -/
theorem BitVector.drop_chunk (bv : BitVector) {v L : Nat} {rest : List Bool}
    (hs : bv.bits.drop bv.readPos = writeBits v L ++ rest) :
    bv.bits.drop (bv.readPos + L) = rest := by
  have h1 : List.drop L (writeBits v L ++ rest) = rest := by
    have h := List.drop_left (writeBits v L) rest
    rwa [writeBits_length] at h
  rw [← List.drop_drop, hs, h1]

/-! ## Encoder denotation: the bit chunks appended per record -/

/-- Bits appended for one skill entry (16-bit id + 1-bit `level > 1` flag). -/
def skillBits (s : SkillData) : List Bool :=
  writeBits s.skill_id 16 ++ writeBits (if 1 < s.level then 1 else 0) 1

/-- Bits appended for one parent sub-record. -/
def parentBits (p : SuccessionCharaData) : List Bool :=
  writeBits p.card_id 20 ++ writeBits (p.talent_level - 1) 3 ++
  writeBits (p.factor_id_array.take 15).length 4 ++
  (p.factor_id_array.take 15).flatMap (fun factorId => writeBits factorId 24)

/-- All bits appended by `encodeChara` for one record, as a flat list. -/
def charaBits (c : CharaData) : List Bool :=
  writeBits c.card_id 20 ++
  writeBits (c.talent_level - 1) 3 ++
  writeBits (min c.speed 2047) 11 ++
  writeBits (min c.stamina 2047) 11 ++
  writeBits (min c.power 2047) 11 ++
  writeBits (min c.guts 2047) 11 ++
  writeBits (min c.wiz 2047) 11 ++
  writeBits (c.proper_distance_short - 1) 3 ++
  writeBits (c.proper_distance_mile - 1) 3 ++
  writeBits (c.proper_distance_middle - 1) 3 ++
  writeBits (c.proper_distance_long - 1) 3 ++
  writeBits (c.proper_ground_turf - 1) 3 ++
  writeBits (c.proper_ground_dirt - 1) 3 ++
  writeBits (c.proper_running_style_nige - 1) 3 ++
  writeBits (c.proper_running_style_senko - 1) 3 ++
  writeBits (c.proper_running_style_sashi - 1) 3 ++
  writeBits (c.proper_running_style_oikomi - 1) 3 ++
  writeBits (c.factor_id_array.take 15).length 4 ++
  (c.factor_id_array.take 15).flatMap (fun factorId => writeBits factorId 24) ++
  writeBits (c.skill_array.take 63).length 6 ++
  (c.skill_array.take 63).flatMap skillBits ++
  writeBits (c.succession_chara_array.take 3).length 2 ++
  (c.succession_chara_array.take 3).flatMap parentBits

/-- A fold of per-element appends is an append of the flattened chunks. -/
theorem foldl_write_append {α : Type} (f : α → List Bool)
    (g : BitVector → α → BitVector)
    (hg : ∀ bv x, g bv x = { bv with bits := bv.bits ++ f x }) :
    ∀ (l : List α) (bv : BitVector),
      l.foldl g bv = { bv with bits := bv.bits ++ l.flatMap f } := by
  intro l
  induction l with
  | nil => intro bv; simp
  | cons x xs ih =>
      intro bv
      rw [List.foldl_cons, ih, hg]
      simp

/-- `encodeChara` appends exactly `charaBits` to the stream. -/
theorem encodeChara_eq (bv : BitVector) (c : CharaData) :
    encodeChara bv c = { bv with bits := bv.bits ++ charaBits c } := by
  have hfac : ∀ (l : List Nat) (bv : BitVector),
      l.foldl (fun bv factorId => bv.write factorId 24) bv
        = { bv with bits := bv.bits ++ l.flatMap (fun factorId => writeBits factorId 24) } :=
    foldl_write_append _ _ (fun bv x => rfl)
  have hskill : ∀ (l : List SkillData) (bv : BitVector),
      l.foldl (fun bv skill =>
          (bv.write skill.skill_id 16).write (if 1 < skill.level then 1 else 0) 1) bv
        = { bv with bits := bv.bits ++ l.flatMap skillBits } := by
    refine foldl_write_append _ _ (fun bv x => ?_)
    simp [BitVector.write, skillBits]
  have hparent : ∀ (l : List SuccessionCharaData) (bv : BitVector),
      l.foldl (fun bv parent => encodeParent bv parent) bv
        = { bv with bits := bv.bits ++ l.flatMap parentBits } := by
    refine foldl_write_append _ _ (fun bv x => ?_)
    rw [encodeParent]
    simp only [hfac]
    simp [BitVector.write, parentBits]
  rw [encodeChara]
  simp only [hfac, hskill, hparent]
  simp [BitVector.write, charaBits]

@[simp] theorem skillBits_length (s : SkillData) : (skillBits s).length = 17 := by
  simp [skillBits]

theorem flatMap_writeBits24_length (l : List Nat) :
    (l.flatMap (fun factorId => writeBits factorId 24)).length = 24 * l.length := by
  induction l with
  | nil => simp
  | cons x xs ih => simp [ih]; ring

theorem flatMap_skillBits_length (l : List SkillData) :
    (l.flatMap skillBits).length = 17 * l.length := by
  induction l with
  | nil => simp
  | cons x xs ih => simp [ih]; ring

theorem parentBits_length (p : SuccessionCharaData) :
    (parentBits p).length = 27 + 24 * (p.factor_id_array.take 15).length := by
  simp only [parentBits, List.length_append, writeBits_length,
    flatMap_writeBits24_length]

/-- Exact appended size of one record. -/
theorem charaBits_length (c : CharaData) :
    (charaBits c).length =
      120 + 24 * (c.factor_id_array.take 15).length
          + 17 * (c.skill_array.take 63).length
          + ((c.succession_chara_array.take 3).flatMap parentBits).length := by
  simp only [charaBits, List.length_append, writeBits_length,
    flatMap_writeBits24_length, flatMap_skillBits_length]
  omega

/-- Every record appends at least 120 bits. -/
theorem charaBits_length_ge (c : CharaData) : 120 ≤ (charaBits c).length := by
  rw [charaBits_length]
  omega

/-! ## Decoder: reading back exactly what was written -/

/-- The parents produced by the decode loop for stored parents `ps`, with `i`
the starting loop index: `position_id` is reassigned to the 1-based loop
position, and the factor list is the (truncated) stored list. -/
def decodedParents (i : Nat) : List SuccessionCharaData → List SuccessionCharaData
  | [] => []
  | p :: ps =>
      { card_id := p.card_id, talent_level := p.talent_level,
        factor_id_array := p.factor_id_array.take 15,
        position_id := i + 1 } :: decodedParents (i + 1) ps

/-- The record `decodeChara` reconstructs from `encodeChara`'s bits: stats
clamped at 2047, lists truncated, skill levels collapsed to the `> 1` flag,
parent positions reassigned, wire-absent fields set to their placeholders. -/
def decodedOf (c : CharaData) : CharaData :=
  { card_id := c.card_id
    talent_level := c.talent_level
    rarity := 3
    speed := min c.speed 2047
    stamina := min c.stamina 2047
    power := min c.power 2047
    guts := min c.guts 2047
    wiz := min c.wiz 2047
    proper_distance_short := c.proper_distance_short
    proper_distance_mile := c.proper_distance_mile
    proper_distance_middle := c.proper_distance_middle
    proper_distance_long := c.proper_distance_long
    proper_ground_turf := c.proper_ground_turf
    proper_ground_dirt := c.proper_ground_dirt
    proper_running_style_nige := c.proper_running_style_nige
    proper_running_style_senko := c.proper_running_style_senko
    proper_running_style_sashi := c.proper_running_style_sashi
    proper_running_style_oikomi := c.proper_running_style_oikomi
    factor_id_array := c.factor_id_array.take 15
    skill_array := (c.skill_array.take 63).map
      (fun s => { skill_id := s.skill_id, level := if 1 < s.level then 2 else 1 })
    succession_chara_array := decodedParents 0 (c.succession_chara_array.take 3)
    support_card_list := [] }

/-- Field-width constraints under which a parent sub-record survives the wire. -/
def ParentEncodable (p : SuccessionCharaData) : Prop :=
  p.card_id < 2 ^ 20 ∧ 1 ≤ p.talent_level ∧ p.talent_level ≤ 8 ∧
  ∀ f ∈ p.factor_id_array, f < 2 ^ 24

/-- Field-width constraints under which a record survives the wire (stats and
list lengths are unconstrained: the encoder clamps and truncates those). -/
def CharaEncodable (c : CharaData) : Prop :=
  c.card_id < 2 ^ 20 ∧
  1 ≤ c.talent_level ∧ c.talent_level ≤ 8 ∧
  (1 ≤ c.proper_distance_short ∧ c.proper_distance_short ≤ 8) ∧
  (1 ≤ c.proper_distance_mile ∧ c.proper_distance_mile ≤ 8) ∧
  (1 ≤ c.proper_distance_middle ∧ c.proper_distance_middle ≤ 8) ∧
  (1 ≤ c.proper_distance_long ∧ c.proper_distance_long ≤ 8) ∧
  (1 ≤ c.proper_ground_turf ∧ c.proper_ground_turf ≤ 8) ∧
  (1 ≤ c.proper_ground_dirt ∧ c.proper_ground_dirt ≤ 8) ∧
  (1 ≤ c.proper_running_style_nige ∧ c.proper_running_style_nige ≤ 8) ∧
  (1 ≤ c.proper_running_style_senko ∧ c.proper_running_style_senko ≤ 8) ∧
  (1 ≤ c.proper_running_style_sashi ∧ c.proper_running_style_sashi ≤ 8) ∧
  (1 ≤ c.proper_running_style_oikomi ∧ c.proper_running_style_oikomi ≤ 8) ∧
  (∀ f ∈ c.factor_id_array, f < 2 ^ 24) ∧
  (∀ s ∈ c.skill_array, s.skill_id < 2 ^ 16) ∧
  (∀ p ∈ c.succession_chara_array, ParentEncodable p)

instance (p : SuccessionCharaData) : Decidable (ParentEncodable p) := by
  unfold ParentEncodable; infer_instance

instance (c : CharaData) : Decidable (CharaEncodable c) := by
  unfold CharaEncodable; infer_instance

/-- The factor loop reads back exactly the factor ids it was given. -/
theorem readFactors_chunk : ∀ (l : List Nat), (∀ v ∈ l, v < 2 ^ 24) →
    ∀ (bv : BitVector) (rest : List Bool),
      bv.bits.drop bv.readPos = l.flatMap (fun v => writeBits v 24) ++ rest →
      readFactors bv l.length
          = (l, { bv with readPos := bv.readPos + 24 * l.length }) ∧
        bv.bits.drop (bv.readPos + 24 * l.length) = rest := by
  intro l
  induction l with
  | nil =>
      intro _ bv rest hs
      simp only [List.flatMap_nil, List.nil_append] at hs
      simp [readFactors, hs]
  | cons v vs ih =>
      intro hlt bv rest hs
      simp only [List.flatMap_cons, List.append_assoc] at hs
      have hread : bv.read 24 = (v, { bv with readPos := bv.readPos + 24 }) :=
        BitVector.read_chunk bv hs (hlt v (by simp))
      have hdrop : bv.bits.drop (bv.readPos + 24) = vs.flatMap (fun v => writeBits v 24) ++ rest :=
        BitVector.drop_chunk bv hs
      have ihs := ih (fun x hx => hlt x (by simp [hx]))
        { bv with readPos := bv.readPos + 24 } rest hdrop
      have harith : bv.readPos + 24 * (vs.length + 1) = bv.readPos + 24 + 24 * vs.length := by
        ring
      constructor
      · show readFactors bv (vs.length + 1) = _
        simp only [readFactors, hread, ihs.1]
        simp [harith]
      · rw [List.length_cons, harith]
        exact ihs.2

/-- The skill loop reads back the stored ids with the collapsed levels. -/
theorem readSkills_chunk : ∀ (l : List SkillData), (∀ s ∈ l, s.skill_id < 2 ^ 16) →
    ∀ (bv : BitVector) (rest : List Bool),
      bv.bits.drop bv.readPos = l.flatMap skillBits ++ rest →
      readSkills bv l.length
          = (l.map (fun s => { skill_id := s.skill_id,
                               level := if 1 < s.level then 2 else 1 }),
             { bv with readPos := bv.readPos + 17 * l.length }) ∧
        bv.bits.drop (bv.readPos + 17 * l.length) = rest := by
  intro l
  induction l with
  | nil =>
      intro _ bv rest hs
      simp only [List.flatMap_nil, List.nil_append] at hs
      simp [readSkills, hs]
  | cons s ss ih =>
      intro hlt bv rest hs
      simp only [List.flatMap_cons, skillBits, List.append_assoc] at hs
      have hread1 : bv.read 16 = (s.skill_id, { bv with readPos := bv.readPos + 16 }) :=
        BitVector.read_chunk bv hs (hlt s (by simp))
      have hdrop1 : bv.bits.drop (bv.readPos + 16)
          = writeBits (if 1 < s.level then 1 else 0) 1 ++ (ss.flatMap skillBits ++ rest) :=
        BitVector.drop_chunk bv hs
      have hflag : ({ bv with readPos := bv.readPos + 16 } : BitVector).read 1
          = ((if 1 < s.level then 1 else 0),
             { bv with readPos := bv.readPos + 16 + 1 }) := by
        have := BitVector.read_chunk ({ bv with readPos := bv.readPos + 16 }) hdrop1 (by split <;> norm_num)
        simpa using this
      have hdrop2 : bv.bits.drop (bv.readPos + 16 + 1) = ss.flatMap skillBits ++ rest := by
        have := BitVector.drop_chunk ({ bv with readPos := bv.readPos + 16 }) hdrop1
        simpa using this
      have ihs := ih (fun x hx => hlt x (by simp [hx]))
        { bv with readPos := bv.readPos + 16 + 1 } rest hdrop2
      have harith : bv.readPos + 17 * (ss.length + 1) = bv.readPos + 16 + 1 + 17 * ss.length := by
        ring
      constructor
      · show readSkills bv (ss.length + 1) = _
        simp only [readSkills, hread1, hflag, ihs.1]
        have hlevel : (if (if 1 < s.level then 1 else 0) ≠ 0 then 2 else 1)
            = (if 1 < s.level then 2 else 1) := by
          split <;> split <;> simp_all
        simp [harith, hlevel]
      · rw [List.length_cons, harith]
        exact ihs.2

/-- The parent loop reads back the truncated parent records, reassigning
1-based positions from the loop index. -/
theorem readParents_chunk : ∀ (l : List SuccessionCharaData) (i : Nat),
    (∀ p ∈ l, ParentEncodable p) →
    ∀ (bv : BitVector) (rest : List Bool),
      bv.bits.drop bv.readPos = l.flatMap parentBits ++ rest →
      readParents bv i l.length
          = (decodedParents i l,
             { bv with readPos := bv.readPos + (l.flatMap parentBits).length }) ∧
        bv.bits.drop (bv.readPos + (l.flatMap parentBits).length) = rest := by
  intro l
  induction l with
  | nil =>
      intro i _ bv rest hs
      simp only [List.flatMap_nil, List.nil_append] at hs
      simp [readParents, decodedParents, hs]
  | cons p ps ih =>
      intro i hpe bv rest hs
      obtain ⟨hcard, htl1, htl8, hfac⟩ := hpe p (by simp)
      simp only [List.flatMap_cons, parentBits, List.append_assoc] at hs
      have h1 : bv.read 20 = (p.card_id, { bv with readPos := bv.readPos + 20 }) :=
        BitVector.read_chunk bv hs hcard
      have hs2 := BitVector.drop_chunk bv hs
      have h2 : ({ bv with readPos := bv.readPos + 20 } : BitVector).read 3
          = (p.talent_level - 1, { bv with readPos := bv.readPos + 20 + 3 }) := by
        have := BitVector.read_chunk ({ bv with readPos := bv.readPos + 20 }) hs2
          (show p.talent_level - 1 < 2 ^ 3 by
            have h8 : (2 : Nat) ^ 3 = 8 := rfl
            omega)
        simpa using this
      have hs3 : bv.bits.drop (bv.readPos + 20 + 3)
          = writeBits (p.factor_id_array.take 15).length 4
            ++ ((p.factor_id_array.take 15).flatMap (fun factorId => writeBits factorId 24)
              ++ (ps.flatMap parentBits ++ rest)) := by
        have := BitVector.drop_chunk ({ bv with readPos := bv.readPos + 20 }) hs2
        simpa using this
      have h3 : ({ bv with readPos := bv.readPos + 20 + 3 } : BitVector).read 4
          = ((p.factor_id_array.take 15).length,
             { bv with readPos := bv.readPos + 20 + 3 + 4 }) := by
        have := BitVector.read_chunk ({ bv with readPos := bv.readPos + 20 + 3 }) hs3
          (show (p.factor_id_array.take 15).length < 2 ^ 4 by
            have hle := List.length_take_le 15 p.factor_id_array
            have h16 : (2 : Nat) ^ 4 = 16 := rfl
            omega)
        simpa using this
      have hs4 : bv.bits.drop (bv.readPos + 20 + 3 + 4)
          = (p.factor_id_array.take 15).flatMap (fun factorId => writeBits factorId 24)
            ++ (ps.flatMap parentBits ++ rest) := by
        have := BitVector.drop_chunk ({ bv with readPos := bv.readPos + 20 + 3 }) hs3
        simpa using this
      have h4 := (readFactors_chunk (p.factor_id_array.take 15)
        (fun x hx => hfac x (List.take_subset _ _ hx))
        { bv with readPos := bv.readPos + 20 + 3 + 4 } (ps.flatMap parentBits ++ rest)
        (by simpa using hs4))
      have hs5 : bv.bits.drop
            (bv.readPos + 20 + 3 + 4 + 24 * (p.factor_id_array.take 15).length)
          = ps.flatMap parentBits ++ rest := by
        have := h4.2
        simpa using this
      have ihs := ih (i + 1) (fun x hx => hpe x (by simp [hx]))
        { bv with readPos := bv.readPos + 20 + 3 + 4 + 24 * (p.factor_id_array.take 15).length }
        rest (by simpa using hs5)
      have harith : bv.readPos + ((p :: ps).flatMap parentBits).length
          = bv.readPos + 20 + 3 + 4 + 24 * (p.factor_id_array.take 15).length
            + (ps.flatMap parentBits).length := by
        simp only [List.flatMap_cons, List.length_append, parentBits_length]
        omega
      constructor
      · show readParents bv i (ps.length + 1) = _
        simp only [readParents, h1, h2, h3, h4.1, ihs.1]
        have htl : p.talent_level - 1 + 1 = p.talent_level := by omega
        simp only [decodedParents, htl]
        simp [parentBits_length, Nat.mul_add]
        omega
      · rw [harith]
        exact ihs.2

set_option maxHeartbeats 2000000 in
/-- `decodeChara` run on a stream whose unread suffix starts with
`charaBits c` succeeds and reconstructs `decodedOf c`, consuming exactly
the record's bits. -/
theorem decodeChara_chunk (c : CharaData) (hc : CharaEncodable c)
    (bv : BitVector) (rest : List Bool)
    (hs : bv.bits.drop bv.readPos = charaBits c ++ rest) :
    decodeChara bv = (some (decodedOf c),
      { bv with readPos := bv.readPos + (charaBits c).length }) ∧
      bv.bits.drop (bv.readPos + (charaBits c).length) = rest := by
  obtain ⟨hcard, htl1, htl8, ⟨ha1l, ha1u⟩, ⟨ha2l, ha2u⟩, ⟨ha3l, ha3u⟩,
    ⟨ha4l, ha4u⟩, ⟨ha5l, ha5u⟩, ⟨ha6l, ha6u⟩, ⟨ha7l, ha7u⟩, ⟨ha8l, ha8u⟩,
    ⟨ha9l, ha9u⟩, ⟨ha10l, ha10u⟩, hfac, hskill, hpar⟩ := hc
  have hguard : ¬ bv.remaining < 108 := by
    have hdl := List.length_drop bv.readPos bv.bits
    rw [hs, List.length_append] at hdl
    have h120 := charaBits_length_ge c
    rw [BitVector.remaining]
    omega
  have hsr : bv.bits.drop bv.readPos =
        writeBits (c.card_id) 20
            ++ (writeBits (c.talent_level - 1) 3
            ++ (writeBits (min c.speed 2047) 11
            ++ (writeBits (min c.stamina 2047) 11
            ++ (writeBits (min c.power 2047) 11
            ++ (writeBits (min c.guts 2047) 11
            ++ (writeBits (min c.wiz 2047) 11
            ++ (writeBits (c.proper_distance_short - 1) 3
            ++ (writeBits (c.proper_distance_mile - 1) 3
            ++ (writeBits (c.proper_distance_middle - 1) 3
            ++ (writeBits (c.proper_distance_long - 1) 3
            ++ (writeBits (c.proper_ground_turf - 1) 3
            ++ (writeBits (c.proper_ground_dirt - 1) 3
            ++ (writeBits (c.proper_running_style_nige - 1) 3
            ++ (writeBits (c.proper_running_style_senko - 1) 3
            ++ (writeBits (c.proper_running_style_sashi - 1) 3
            ++ (writeBits (c.proper_running_style_oikomi - 1) 3
            ++ (writeBits ((c.factor_id_array.take 15).length) 4
            ++ ((c.factor_id_array.take 15).flatMap (fun factorId => writeBits factorId 24)
            ++ (writeBits (c.skill_array.take 63).length 6
            ++ ((c.skill_array.take 63).flatMap skillBits
            ++ (writeBits (c.succession_chara_array.take 3).length 2
            ++ ((c.succession_chara_array.take 3).flatMap parentBits
            ++ (rest))))))))))))))))))))))) := by
    rw [hs, charaBits]
    simp only [List.append_assoc]
  have hR0 : bv.read 20 = (c.card_id,
      { bv with readPos := bv.readPos + 20 }) :=
    BitVector.read_chunk bv hsr hcard
  have hS1 : bv.bits.drop (bv.readPos + 20) =
        writeBits (c.talent_level - 1) 3
            ++ (writeBits (min c.speed 2047) 11
            ++ (writeBits (min c.stamina 2047) 11
            ++ (writeBits (min c.power 2047) 11
            ++ (writeBits (min c.guts 2047) 11
            ++ (writeBits (min c.wiz 2047) 11
            ++ (writeBits (c.proper_distance_short - 1) 3
            ++ (writeBits (c.proper_distance_mile - 1) 3
            ++ (writeBits (c.proper_distance_middle - 1) 3
            ++ (writeBits (c.proper_distance_long - 1) 3
            ++ (writeBits (c.proper_ground_turf - 1) 3
            ++ (writeBits (c.proper_ground_dirt - 1) 3
            ++ (writeBits (c.proper_running_style_nige - 1) 3
            ++ (writeBits (c.proper_running_style_senko - 1) 3
            ++ (writeBits (c.proper_running_style_sashi - 1) 3
            ++ (writeBits (c.proper_running_style_oikomi - 1) 3
            ++ (writeBits ((c.factor_id_array.take 15).length) 4
            ++ ((c.factor_id_array.take 15).flatMap (fun factorId => writeBits factorId 24)
            ++ (writeBits (c.skill_array.take 63).length 6
            ++ ((c.skill_array.take 63).flatMap skillBits
            ++ (writeBits (c.succession_chara_array.take 3).length 2
            ++ ((c.succession_chara_array.take 3).flatMap parentBits
            ++ (rest)))))))))))))))))))))) :=
    BitVector.drop_chunk bv hsr
  have hR1 : ({ bv with readPos := bv.readPos + 20 } : BitVector).read 3
      = (c.talent_level - 1, { bv with readPos := bv.readPos + 20 + 3 }) := by
    have := BitVector.read_chunk ({ bv with readPos := bv.readPos + 20 }) hS1 (show c.talent_level - 1 < 2 ^ 3 by have h8 : (2 : Nat) ^ 3 = 8 := rfl; omega)
    simpa using this
  have hS2 : bv.bits.drop (bv.readPos + 20 + 3) =
        writeBits (min c.speed 2047) 11
            ++ (writeBits (min c.stamina 2047) 11
            ++ (writeBits (min c.power 2047) 11
            ++ (writeBits (min c.guts 2047) 11
            ++ (writeBits (min c.wiz 2047) 11
            ++ (writeBits (c.proper_distance_short - 1) 3
            ++ (writeBits (c.proper_distance_mile - 1) 3
            ++ (writeBits (c.proper_distance_middle - 1) 3
            ++ (writeBits (c.proper_distance_long - 1) 3
            ++ (writeBits (c.proper_ground_turf - 1) 3
            ++ (writeBits (c.proper_ground_dirt - 1) 3
            ++ (writeBits (c.proper_running_style_nige - 1) 3
            ++ (writeBits (c.proper_running_style_senko - 1) 3
            ++ (writeBits (c.proper_running_style_sashi - 1) 3
            ++ (writeBits (c.proper_running_style_oikomi - 1) 3
            ++ (writeBits ((c.factor_id_array.take 15).length) 4
            ++ ((c.factor_id_array.take 15).flatMap (fun factorId => writeBits factorId 24)
            ++ (writeBits (c.skill_array.take 63).length 6
            ++ ((c.skill_array.take 63).flatMap skillBits
            ++ (writeBits (c.succession_chara_array.take 3).length 2
            ++ ((c.succession_chara_array.take 3).flatMap parentBits
            ++ (rest))))))))))))))))))))) := by
    have := BitVector.drop_chunk ({ bv with readPos := bv.readPos + 20 }) hS1
    simpa using this
  have hR2 : ({ bv with readPos := bv.readPos + 20 + 3 } : BitVector).read 11
      = (min c.speed 2047, { bv with readPos := bv.readPos + 20 + 3 + 11 }) := by
    have := BitVector.read_chunk ({ bv with readPos := bv.readPos + 20 + 3 }) hS2 (show min c.speed 2047 < 2 ^ 11 by have h2k : (2 : Nat) ^ 11 = 2048 := rfl; omega)
    simpa using this
  have hS3 : bv.bits.drop (bv.readPos + 20 + 3 + 11) =
        writeBits (min c.stamina 2047) 11
            ++ (writeBits (min c.power 2047) 11
            ++ (writeBits (min c.guts 2047) 11
            ++ (writeBits (min c.wiz 2047) 11
            ++ (writeBits (c.proper_distance_short - 1) 3
            ++ (writeBits (c.proper_distance_mile - 1) 3
            ++ (writeBits (c.proper_distance_middle - 1) 3
            ++ (writeBits (c.proper_distance_long - 1) 3
            ++ (writeBits (c.proper_ground_turf - 1) 3
            ++ (writeBits (c.proper_ground_dirt - 1) 3
            ++ (writeBits (c.proper_running_style_nige - 1) 3
            ++ (writeBits (c.proper_running_style_senko - 1) 3
            ++ (writeBits (c.proper_running_style_sashi - 1) 3
            ++ (writeBits (c.proper_running_style_oikomi - 1) 3
            ++ (writeBits ((c.factor_id_array.take 15).length) 4
            ++ ((c.factor_id_array.take 15).flatMap (fun factorId => writeBits factorId 24)
            ++ (writeBits (c.skill_array.take 63).length 6
            ++ ((c.skill_array.take 63).flatMap skillBits
            ++ (writeBits (c.succession_chara_array.take 3).length 2
            ++ ((c.succession_chara_array.take 3).flatMap parentBits
            ++ (rest)))))))))))))))))))) := by
    have := BitVector.drop_chunk ({ bv with readPos := bv.readPos + 20 + 3 }) hS2
    simpa using this
  have hR3 : ({ bv with readPos := bv.readPos + 20 + 3 + 11 } : BitVector).read 11
      = (min c.stamina 2047, { bv with readPos := bv.readPos + 20 + 3 + 11 + 11 }) := by
    have := BitVector.read_chunk ({ bv with readPos := bv.readPos + 20 + 3 + 11 }) hS3 (show min c.stamina 2047 < 2 ^ 11 by have h2k : (2 : Nat) ^ 11 = 2048 := rfl; omega)
    simpa using this
  have hS4 : bv.bits.drop (bv.readPos + 20 + 3 + 11 + 11) =
        writeBits (min c.power 2047) 11
            ++ (writeBits (min c.guts 2047) 11
            ++ (writeBits (min c.wiz 2047) 11
            ++ (writeBits (c.proper_distance_short - 1) 3
            ++ (writeBits (c.proper_distance_mile - 1) 3
            ++ (writeBits (c.proper_distance_middle - 1) 3
            ++ (writeBits (c.proper_distance_long - 1) 3
            ++ (writeBits (c.proper_ground_turf - 1) 3
            ++ (writeBits (c.proper_ground_dirt - 1) 3
            ++ (writeBits (c.proper_running_style_nige - 1) 3
            ++ (writeBits (c.proper_running_style_senko - 1) 3
            ++ (writeBits (c.proper_running_style_sashi - 1) 3
            ++ (writeBits (c.proper_running_style_oikomi - 1) 3
            ++ (writeBits ((c.factor_id_array.take 15).length) 4
            ++ ((c.factor_id_array.take 15).flatMap (fun factorId => writeBits factorId 24)
            ++ (writeBits (c.skill_array.take 63).length 6
            ++ ((c.skill_array.take 63).flatMap skillBits
            ++ (writeBits (c.succession_chara_array.take 3).length 2
            ++ ((c.succession_chara_array.take 3).flatMap parentBits
            ++ (rest))))))))))))))))))) := by
    have := BitVector.drop_chunk ({ bv with readPos := bv.readPos + 20 + 3 + 11 }) hS3
    simpa using this
  have hR4 : ({ bv with readPos := bv.readPos + 20 + 3 + 11 + 11 } : BitVector).read 11
      = (min c.power 2047, { bv with readPos := bv.readPos + 20 + 3 + 11 + 11 + 11 }) := by
    have := BitVector.read_chunk ({ bv with readPos := bv.readPos + 20 + 3 + 11 + 11 }) hS4 (show min c.power 2047 < 2 ^ 11 by have h2k : (2 : Nat) ^ 11 = 2048 := rfl; omega)
    simpa using this
  have hS5 : bv.bits.drop (bv.readPos + 20 + 3 + 11 + 11 + 11) =
        writeBits (min c.guts 2047) 11
            ++ (writeBits (min c.wiz 2047) 11
            ++ (writeBits (c.proper_distance_short - 1) 3
            ++ (writeBits (c.proper_distance_mile - 1) 3
            ++ (writeBits (c.proper_distance_middle - 1) 3
            ++ (writeBits (c.proper_distance_long - 1) 3
            ++ (writeBits (c.proper_ground_turf - 1) 3
            ++ (writeBits (c.proper_ground_dirt - 1) 3
            ++ (writeBits (c.proper_running_style_nige - 1) 3
            ++ (writeBits (c.proper_running_style_senko - 1) 3
            ++ (writeBits (c.proper_running_style_sashi - 1) 3
            ++ (writeBits (c.proper_running_style_oikomi - 1) 3
            ++ (writeBits ((c.factor_id_array.take 15).length) 4
            ++ ((c.factor_id_array.take 15).flatMap (fun factorId => writeBits factorId 24)
            ++ (writeBits (c.skill_array.take 63).length 6
            ++ ((c.skill_array.take 63).flatMap skillBits
            ++ (writeBits (c.succession_chara_array.take 3).length 2
            ++ ((c.succession_chara_array.take 3).flatMap parentBits
            ++ (rest)))))))))))))))))) := by
    have := BitVector.drop_chunk ({ bv with readPos := bv.readPos + 20 + 3 + 11 + 11 }) hS4
    simpa using this
  have hR5 : ({ bv with readPos := bv.readPos + 20 + 3 + 11 + 11 + 11 } : BitVector).read 11
      = (min c.guts 2047, { bv with readPos := bv.readPos + 20 + 3 + 11 + 11 + 11 + 11 }) := by
    have := BitVector.read_chunk ({ bv with readPos := bv.readPos + 20 + 3 + 11 + 11 + 11 }) hS5 (show min c.guts 2047 < 2 ^ 11 by have h2k : (2 : Nat) ^ 11 = 2048 := rfl; omega)
    simpa using this
  have hS6 : bv.bits.drop (bv.readPos + 20 + 3 + 11 + 11 + 11 + 11) =
        writeBits (min c.wiz 2047) 11
            ++ (writeBits (c.proper_distance_short - 1) 3
            ++ (writeBits (c.proper_distance_mile - 1) 3
            ++ (writeBits (c.proper_distance_middle - 1) 3
            ++ (writeBits (c.proper_distance_long - 1) 3
            ++ (writeBits (c.proper_ground_turf - 1) 3
            ++ (writeBits (c.proper_ground_dirt - 1) 3
            ++ (writeBits (c.proper_running_style_nige - 1) 3
            ++ (writeBits (c.proper_running_style_senko - 1) 3
            ++ (writeBits (c.proper_running_style_sashi - 1) 3
            ++ (writeBits (c.proper_running_style_oikomi - 1) 3
            ++ (writeBits ((c.factor_id_array.take 15).length) 4
            ++ ((c.factor_id_array.take 15).flatMap (fun factorId => writeBits factorId 24)
            ++ (writeBits (c.skill_array.take 63).length 6
            ++ ((c.skill_array.take 63).flatMap skillBits
            ++ (writeBits (c.succession_chara_array.take 3).length 2
            ++ ((c.succession_chara_array.take 3).flatMap parentBits
            ++ (rest))))))))))))))))) := by
    have := BitVector.drop_chunk ({ bv with readPos := bv.readPos + 20 + 3 + 11 + 11 + 11 }) hS5
    simpa using this
  have hR6 : ({ bv with readPos := bv.readPos + 20 + 3 + 11 + 11 + 11 + 11 } : BitVector).read 11
      = (min c.wiz 2047, { bv with readPos := bv.readPos + 20 + 3 + 11 + 11 + 11 + 11 + 11 }) := by
    have := BitVector.read_chunk ({ bv with readPos := bv.readPos + 20 + 3 + 11 + 11 + 11 + 11 }) hS6 (show min c.wiz 2047 < 2 ^ 11 by have h2k : (2 : Nat) ^ 11 = 2048 := rfl; omega)
    simpa using this
  have hS7 : bv.bits.drop (bv.readPos + 20 + 3 + 11 + 11 + 11 + 11 + 11) =
        writeBits (c.proper_distance_short - 1) 3
            ++ (writeBits (c.proper_distance_mile - 1) 3
            ++ (writeBits (c.proper_distance_middle - 1) 3
            ++ (writeBits (c.proper_distance_long - 1) 3
            ++ (writeBits (c.proper_ground_turf - 1) 3
            ++ (writeBits (c.proper_ground_dirt - 1) 3
            ++ (writeBits (c.proper_running_style_nige - 1) 3
            ++ (writeBits (c.proper_running_style_senko - 1) 3
            ++ (writeBits (c.proper_running_style_sashi - 1) 3
            ++ (writeBits (c.proper_running_style_oikomi - 1) 3
            ++ (writeBits ((c.factor_id_array.take 15).length) 4
            ++ ((c.factor_id_array.take 15).flatMap (fun factorId => writeBits factorId 24)
            ++ (writeBits (c.skill_array.take 63).length 6
            ++ ((c.skill_array.take 63).flatMap skillBits
            ++ (writeBits (c.succession_chara_array.take 3).length 2
            ++ ((c.succession_chara_array.take 3).flatMap parentBits
            ++ (rest)))))))))))))))) := by
    have := BitVector.drop_chunk ({ bv with readPos := bv.readPos + 20 + 3 + 11 + 11 + 11 + 11 }) hS6
    simpa using this
  have hR7 : ({ bv with readPos := bv.readPos + 20 + 3 + 11 + 11 + 11 + 11 + 11 } : BitVector).read 3
      = (c.proper_distance_short - 1, { bv with readPos := bv.readPos + 20 + 3 + 11 + 11 + 11 + 11 + 11 + 3 }) := by
    have := BitVector.read_chunk ({ bv with readPos := bv.readPos + 20 + 3 + 11 + 11 + 11 + 11 + 11 }) hS7 (show c.proper_distance_short - 1 < 2 ^ 3 by have h8 : (2 : Nat) ^ 3 = 8 := rfl; omega)
    simpa using this
  have hS8 : bv.bits.drop (bv.readPos + 20 + 3 + 11 + 11 + 11 + 11 + 11 + 3) =
        writeBits (c.proper_distance_mile - 1) 3
            ++ (writeBits (c.proper_distance_middle - 1) 3
            ++ (writeBits (c.proper_distance_long - 1) 3
            ++ (writeBits (c.proper_ground_turf - 1) 3
            ++ (writeBits (c.proper_ground_dirt - 1) 3
            ++ (writeBits (c.proper_running_style_nige - 1) 3
            ++ (writeBits (c.proper_running_style_senko - 1) 3
            ++ (writeBits (c.proper_running_style_sashi - 1) 3
            ++ (writeBits (c.proper_running_style_oikomi - 1) 3
            ++ (writeBits ((c.factor_id_array.take 15).length) 4
            ++ ((c.factor_id_array.take 15).flatMap (fun factorId => writeBits factorId 24)
            ++ (writeBits (c.skill_array.take 63).length 6
            ++ ((c.skill_array.take 63).flatMap skillBits
            ++ (writeBits (c.succession_chara_array.take 3).length 2
            ++ ((c.succession_chara_array.take 3).flatMap parentBits
            ++ (rest))))))))))))))) := by
    have := BitVector.drop_chunk ({ bv with readPos := bv.readPos + 20 + 3 + 11 + 11 + 11 + 11 + 11 }) hS7
    simpa using this
  have hR8 : ({ bv with readPos := bv.readPos + 20 + 3 + 11 + 11 + 11 + 11 + 11 + 3 } : BitVector).read 3
      = (c.proper_distance_mile - 1, { bv with readPos := bv.readPos + 20 + 3 + 11 + 11 + 11 + 11 + 11 + 3 + 3 }) := by
    have := BitVector.read_chunk ({ bv with readPos := bv.readPos + 20 + 3 + 11 + 11 + 11 + 11 + 11 + 3 }) hS8 (show c.proper_distance_mile - 1 < 2 ^ 3 by have h8 : (2 : Nat) ^ 3 = 8 := rfl; omega)
    simpa using this
  have hS9 : bv.bits.drop (bv.readPos + 20 + 3 + 11 + 11 + 11 + 11 + 11 + 3 + 3) =
        writeBits (c.proper_distance_middle - 1) 3
            ++ (writeBits (c.proper_distance_long - 1) 3
            ++ (writeBits (c.proper_ground_turf - 1) 3
            ++ (writeBits (c.proper_ground_dirt - 1) 3
            ++ (writeBits (c.proper_running_style_nige - 1) 3
            ++ (writeBits (c.proper_running_style_senko - 1) 3
            ++ (writeBits (c.proper_running_style_sashi - 1) 3
            ++ (writeBits (c.proper_running_style_oikomi - 1) 3
            ++ (writeBits ((c.factor_id_array.take 15).length) 4
            ++ ((c.factor_id_array.take 15).flatMap (fun factorId => writeBits factorId 24)
            ++ (writeBits (c.skill_array.take 63).length 6
            ++ ((c.skill_array.take 63).flatMap skillBits
            ++ (writeBits (c.succession_chara_array.take 3).length 2
            ++ ((c.succession_chara_array.take 3).flatMap parentBits
            ++ (rest)))))))))))))) := by
    have := BitVector.drop_chunk ({ bv with readPos := bv.readPos + 20 + 3 + 11 + 11 + 11 + 11 + 11 + 3 }) hS8
    simpa using this
  have hR9 : ({ bv with readPos := bv.readPos + 20 + 3 + 11 + 11 + 11 + 11 + 11 + 3 + 3 } : BitVector).read 3
      = (c.proper_distance_middle - 1, { bv with readPos := bv.readPos + 20 + 3 + 11 + 11 + 11 + 11 + 11 + 3 + 3 + 3 }) := by
    have := BitVector.read_chunk ({ bv with readPos := bv.readPos + 20 + 3 + 11 + 11 + 11 + 11 + 11 + 3 + 3 }) hS9 (show c.proper_distance_middle - 1 < 2 ^ 3 by have h8 : (2 : Nat) ^ 3 = 8 := rfl; omega)
    simpa using this
  have hS10 : bv.bits.drop (bv.readPos + 20 + 3 + 11 + 11 + 11 + 11 + 11 + 3 + 3 + 3) =
        writeBits (c.proper_distance_long - 1) 3
            ++ (writeBits (c.proper_ground_turf - 1) 3
            ++ (writeBits (c.proper_ground_dirt - 1) 3
            ++ (writeBits (c.proper_running_style_nige - 1) 3
            ++ (writeBits (c.proper_running_style_senko - 1) 3
            ++ (writeBits (c.proper_running_style_sashi - 1) 3
            ++ (writeBits (c.proper_running_style_oikomi - 1) 3
            ++ (writeBits ((c.factor_id_array.take 15).length) 4
            ++ ((c.factor_id_array.take 15).flatMap (fun factorId => writeBits factorId 24)
            ++ (writeBits (c.skill_array.take 63).length 6
            ++ ((c.skill_array.take 63).flatMap skillBits
            ++ (writeBits (c.succession_chara_array.take 3).length 2
            ++ ((c.succession_chara_array.take 3).flatMap parentBits
            ++ (rest))))))))))))) := by
    have := BitVector.drop_chunk ({ bv with readPos := bv.readPos + 20 + 3 + 11 + 11 + 11 + 11 + 11 + 3 + 3 }) hS9
    simpa using this
  have hR10 : ({ bv with readPos := bv.readPos + 20 + 3 + 11 + 11 + 11 + 11 + 11 + 3 + 3 + 3 } : BitVector).read 3
      = (c.proper_distance_long - 1, { bv with readPos := bv.readPos + 20 + 3 + 11 + 11 + 11 + 11 + 11 + 3 + 3 + 3 + 3 }) := by
    have := BitVector.read_chunk ({ bv with readPos := bv.readPos + 20 + 3 + 11 + 11 + 11 + 11 + 11 + 3 + 3 + 3 }) hS10 (show c.proper_distance_long - 1 < 2 ^ 3 by have h8 : (2 : Nat) ^ 3 = 8 := rfl; omega)
    simpa using this
  have hS11 : bv.bits.drop (bv.readPos + 20 + 3 + 11 + 11 + 11 + 11 + 11 + 3 + 3 + 3 + 3) =
        writeBits (c.proper_ground_turf - 1) 3
            ++ (writeBits (c.proper_ground_dirt - 1) 3
            ++ (writeBits (c.proper_running_style_nige - 1) 3
            ++ (writeBits (c.proper_running_style_senko - 1) 3
            ++ (writeBits (c.proper_running_style_sashi - 1) 3
            ++ (writeBits (c.proper_running_style_oikomi - 1) 3
            ++ (writeBits ((c.factor_id_array.take 15).length) 4
            ++ ((c.factor_id_array.take 15).flatMap (fun factorId => writeBits factorId 24)
            ++ (writeBits (c.skill_array.take 63).length 6
            ++ ((c.skill_array.take 63).flatMap skillBits
            ++ (writeBits (c.succession_chara_array.take 3).length 2
            ++ ((c.succession_chara_array.take 3).flatMap parentBits
            ++ (rest)))))))))))) := by
    have := BitVector.drop_chunk ({ bv with readPos := bv.readPos + 20 + 3 + 11 + 11 + 11 + 11 + 11 + 3 + 3 + 3 }) hS10
    simpa using this
  have hR11 : ({ bv with readPos := bv.readPos + 20 + 3 + 11 + 11 + 11 + 11 + 11 + 3 + 3 + 3 + 3 } : BitVector).read 3
      = (c.proper_ground_turf - 1, { bv with readPos := bv.readPos + 20 + 3 + 11 + 11 + 11 + 11 + 11 + 3 + 3 + 3 + 3 + 3 }) := by
    have := BitVector.read_chunk ({ bv with readPos := bv.readPos + 20 + 3 + 11 + 11 + 11 + 11 + 11 + 3 + 3 + 3 + 3 }) hS11 (show c.proper_ground_turf - 1 < 2 ^ 3 by have h8 : (2 : Nat) ^ 3 = 8 := rfl; omega)
    simpa using this
  have hS12 : bv.bits.drop (bv.readPos + 20 + 3 + 11 + 11 + 11 + 11 + 11 + 3 + 3 + 3 + 3 + 3) =
        writeBits (c.proper_ground_dirt - 1) 3
            ++ (writeBits (c.proper_running_style_nige - 1) 3
            ++ (writeBits (c.proper_running_style_senko - 1) 3
            ++ (writeBits (c.proper_running_style_sashi - 1) 3
            ++ (writeBits (c.proper_running_style_oikomi - 1) 3
            ++ (writeBits ((c.factor_id_array.take 15).length) 4
            ++ ((c.factor_id_array.take 15).flatMap (fun factorId => writeBits factorId 24)
            ++ (writeBits (c.skill_array.take 63).length 6
            ++ ((c.skill_array.take 63).flatMap skillBits
            ++ (writeBits (c.succession_chara_array.take 3).length 2
            ++ ((c.succession_chara_array.take 3).flatMap parentBits
            ++ (rest))))))))))) := by
    have := BitVector.drop_chunk ({ bv with readPos := bv.readPos + 20 + 3 + 11 + 11 + 11 + 11 + 11 + 3 + 3 + 3 + 3 }) hS11
    simpa using this
  have hR12 : ({ bv with readPos := bv.readPos + 20 + 3 + 11 + 11 + 11 + 11 + 11 + 3 + 3 + 3 + 3 + 3 } : BitVector).read 3
      = (c.proper_ground_dirt - 1, { bv with readPos := bv.readPos + 20 + 3 + 11 + 11 + 11 + 11 + 11 + 3 + 3 + 3 + 3 + 3 + 3 }) := by
    have := BitVector.read_chunk ({ bv with readPos := bv.readPos + 20 + 3 + 11 + 11 + 11 + 11 + 11 + 3 + 3 + 3 + 3 + 3 }) hS12 (show c.proper_ground_dirt - 1 < 2 ^ 3 by have h8 : (2 : Nat) ^ 3 = 8 := rfl; omega)
    simpa using this
  have hS13 : bv.bits.drop (bv.readPos + 20 + 3 + 11 + 11 + 11 + 11 + 11 + 3 + 3 + 3 + 3 + 3 + 3) =
        writeBits (c.proper_running_style_nige - 1) 3
            ++ (writeBits (c.proper_running_style_senko - 1) 3
            ++ (writeBits (c.proper_running_style_sashi - 1) 3
            ++ (writeBits (c.proper_running_style_oikomi - 1) 3
            ++ (writeBits ((c.factor_id_array.take 15).length) 4
            ++ ((c.factor_id_array.take 15).flatMap (fun factorId => writeBits factorId 24)
            ++ (writeBits (c.skill_array.take 63).length 6
            ++ ((c.skill_array.take 63).flatMap skillBits
            ++ (writeBits (c.succession_chara_array.take 3).length 2
            ++ ((c.succession_chara_array.take 3).flatMap parentBits
            ++ (rest)))))))))) := by
    have := BitVector.drop_chunk ({ bv with readPos := bv.readPos + 20 + 3 + 11 + 11 + 11 + 11 + 11 + 3 + 3 + 3 + 3 + 3 }) hS12
    simpa using this
  have hR13 : ({ bv with readPos := bv.readPos + 20 + 3 + 11 + 11 + 11 + 11 + 11 + 3 + 3 + 3 + 3 + 3 + 3 } : BitVector).read 3
      = (c.proper_running_style_nige - 1, { bv with readPos := bv.readPos + 20 + 3 + 11 + 11 + 11 + 11 + 11 + 3 + 3 + 3 + 3 + 3 + 3 + 3 }) := by
    have := BitVector.read_chunk ({ bv with readPos := bv.readPos + 20 + 3 + 11 + 11 + 11 + 11 + 11 + 3 + 3 + 3 + 3 + 3 + 3 }) hS13 (show c.proper_running_style_nige - 1 < 2 ^ 3 by have h8 : (2 : Nat) ^ 3 = 8 := rfl; omega)
    simpa using this
  have hS14 : bv.bits.drop (bv.readPos + 20 + 3 + 11 + 11 + 11 + 11 + 11 + 3 + 3 + 3 + 3 + 3 + 3 + 3) =
        writeBits (c.proper_running_style_senko - 1) 3
            ++ (writeBits (c.proper_running_style_sashi - 1) 3
            ++ (writeBits (c.proper_running_style_oikomi - 1) 3
            ++ (writeBits ((c.factor_id_array.take 15).length) 4
            ++ ((c.factor_id_array.take 15).flatMap (fun factorId => writeBits factorId 24)
            ++ (writeBits (c.skill_array.take 63).length 6
            ++ ((c.skill_array.take 63).flatMap skillBits
            ++ (writeBits (c.succession_chara_array.take 3).length 2
            ++ ((c.succession_chara_array.take 3).flatMap parentBits
            ++ (rest))))))))) := by
    have := BitVector.drop_chunk ({ bv with readPos := bv.readPos + 20 + 3 + 11 + 11 + 11 + 11 + 11 + 3 + 3 + 3 + 3 + 3 + 3 }) hS13
    simpa using this
  have hR14 : ({ bv with readPos := bv.readPos + 20 + 3 + 11 + 11 + 11 + 11 + 11 + 3 + 3 + 3 + 3 + 3 + 3 + 3 } : BitVector).read 3
      = (c.proper_running_style_senko - 1, { bv with readPos := bv.readPos + 20 + 3 + 11 + 11 + 11 + 11 + 11 + 3 + 3 + 3 + 3 + 3 + 3 + 3 + 3 }) := by
    have := BitVector.read_chunk ({ bv with readPos := bv.readPos + 20 + 3 + 11 + 11 + 11 + 11 + 11 + 3 + 3 + 3 + 3 + 3 + 3 + 3 }) hS14 (show c.proper_running_style_senko - 1 < 2 ^ 3 by have h8 : (2 : Nat) ^ 3 = 8 := rfl; omega)
    simpa using this
  have hS15 : bv.bits.drop (bv.readPos + 20 + 3 + 11 + 11 + 11 + 11 + 11 + 3 + 3 + 3 + 3 + 3 + 3 + 3 + 3) =
        writeBits (c.proper_running_style_sashi - 1) 3
            ++ (writeBits (c.proper_running_style_oikomi - 1) 3
            ++ (writeBits ((c.factor_id_array.take 15).length) 4
            ++ ((c.factor_id_array.take 15).flatMap (fun factorId => writeBits factorId 24)
            ++ (writeBits (c.skill_array.take 63).length 6
            ++ ((c.skill_array.take 63).flatMap skillBits
            ++ (writeBits (c.succession_chara_array.take 3).length 2
            ++ ((c.succession_chara_array.take 3).flatMap parentBits
            ++ (rest)))))))) := by
    have := BitVector.drop_chunk ({ bv with readPos := bv.readPos + 20 + 3 + 11 + 11 + 11 + 11 + 11 + 3 + 3 + 3 + 3 + 3 + 3 + 3 }) hS14
    simpa using this
  have hR15 : ({ bv with readPos := bv.readPos + 20 + 3 + 11 + 11 + 11 + 11 + 11 + 3 + 3 + 3 + 3 + 3 + 3 + 3 + 3 } : BitVector).read 3
      = (c.proper_running_style_sashi - 1, { bv with readPos := bv.readPos + 20 + 3 + 11 + 11 + 11 + 11 + 11 + 3 + 3 + 3 + 3 + 3 + 3 + 3 + 3 + 3 }) := by
    have := BitVector.read_chunk ({ bv with readPos := bv.readPos + 20 + 3 + 11 + 11 + 11 + 11 + 11 + 3 + 3 + 3 + 3 + 3 + 3 + 3 + 3 }) hS15 (show c.proper_running_style_sashi - 1 < 2 ^ 3 by have h8 : (2 : Nat) ^ 3 = 8 := rfl; omega)
    simpa using this
  have hS16 : bv.bits.drop (bv.readPos + 20 + 3 + 11 + 11 + 11 + 11 + 11 + 3 + 3 + 3 + 3 + 3 + 3 + 3 + 3 + 3) =
        writeBits (c.proper_running_style_oikomi - 1) 3
            ++ (writeBits ((c.factor_id_array.take 15).length) 4
            ++ ((c.factor_id_array.take 15).flatMap (fun factorId => writeBits factorId 24)
            ++ (writeBits (c.skill_array.take 63).length 6
            ++ ((c.skill_array.take 63).flatMap skillBits
            ++ (writeBits (c.succession_chara_array.take 3).length 2
            ++ ((c.succession_chara_array.take 3).flatMap parentBits
            ++ (rest))))))) := by
    have := BitVector.drop_chunk ({ bv with readPos := bv.readPos + 20 + 3 + 11 + 11 + 11 + 11 + 11 + 3 + 3 + 3 + 3 + 3 + 3 + 3 + 3 }) hS15
    simpa using this
  have hR16 : ({ bv with readPos := bv.readPos + 20 + 3 + 11 + 11 + 11 + 11 + 11 + 3 + 3 + 3 + 3 + 3 + 3 + 3 + 3 + 3 } : BitVector).read 3
      = (c.proper_running_style_oikomi - 1, { bv with readPos := bv.readPos + 20 + 3 + 11 + 11 + 11 + 11 + 11 + 3 + 3 + 3 + 3 + 3 + 3 + 3 + 3 + 3 + 3 }) := by
    have := BitVector.read_chunk ({ bv with readPos := bv.readPos + 20 + 3 + 11 + 11 + 11 + 11 + 11 + 3 + 3 + 3 + 3 + 3 + 3 + 3 + 3 + 3 }) hS16 (show c.proper_running_style_oikomi - 1 < 2 ^ 3 by have h8 : (2 : Nat) ^ 3 = 8 := rfl; omega)
    simpa using this
  have hS17 : bv.bits.drop (bv.readPos + 20 + 3 + 11 + 11 + 11 + 11 + 11 + 3 + 3 + 3 + 3 + 3 + 3 + 3 + 3 + 3 + 3) =
        writeBits ((c.factor_id_array.take 15).length) 4
            ++ ((c.factor_id_array.take 15).flatMap (fun factorId => writeBits factorId 24)
            ++ (writeBits (c.skill_array.take 63).length 6
            ++ ((c.skill_array.take 63).flatMap skillBits
            ++ (writeBits (c.succession_chara_array.take 3).length 2
            ++ ((c.succession_chara_array.take 3).flatMap parentBits
            ++ (rest)))))) := by
    have := BitVector.drop_chunk ({ bv with readPos := bv.readPos + 20 + 3 + 11 + 11 + 11 + 11 + 11 + 3 + 3 + 3 + 3 + 3 + 3 + 3 + 3 + 3 }) hS16
    simpa using this
  have hR17 : ({ bv with readPos := bv.readPos + 20 + 3 + 11 + 11 + 11 + 11 + 11 + 3 + 3 + 3 + 3 + 3 + 3 + 3 + 3 + 3 + 3 } : BitVector).read 4
      = ((c.factor_id_array.take 15).length, { bv with readPos := bv.readPos + 20 + 3 + 11 + 11 + 11 + 11 + 11 + 3 + 3 + 3 + 3 + 3 + 3 + 3 + 3 + 3 + 3 + 4 }) := by
    have := BitVector.read_chunk ({ bv with readPos := bv.readPos + 20 + 3 + 11 + 11 + 11 + 11 + 11 + 3 + 3 + 3 + 3 + 3 + 3 + 3 + 3 + 3 + 3 }) hS17 (show (c.factor_id_array.take 15).length < 2 ^ 4 by have hle := List.length_take_le 15 c.factor_id_array; have h16 : (2 : Nat) ^ 4 = 16 := rfl; omega)
    simpa using this
  have hS18 : bv.bits.drop (bv.readPos + 20 + 3 + 11 + 11 + 11 + 11 + 11 + 3 + 3 + 3 + 3 + 3 + 3 + 3 + 3 + 3 + 3 + 4) =
        (c.factor_id_array.take 15).flatMap (fun factorId => writeBits factorId 24)
            ++ (writeBits (c.skill_array.take 63).length 6
            ++ ((c.skill_array.take 63).flatMap skillBits
            ++ (writeBits (c.succession_chara_array.take 3).length 2
            ++ ((c.succession_chara_array.take 3).flatMap parentBits
            ++ (rest))))) := by
    have := BitVector.drop_chunk ({ bv with readPos := bv.readPos + 20 + 3 + 11 + 11 + 11 + 11 + 11 + 3 + 3 + 3 + 3 + 3 + 3 + 3 + 3 + 3 + 3 }) hS17
    simpa using this
  have hF := readFactors_chunk (c.factor_id_array.take 15)
    (fun x hx => hfac x (List.take_subset _ _ hx))
    { bv with readPos := bv.readPos + 20 + 3 + 11 + 11 + 11 + 11 + 11 + 3 + 3 + 3 + 3 + 3 + 3 + 3 + 3 + 3 + 3 + 4 }
    (writeBits (c.skill_array.take 63).length 6
            ++ ((c.skill_array.take 63).flatMap skillBits
            ++ (writeBits (c.succession_chara_array.take 3).length 2
            ++ ((c.succession_chara_array.take 3).flatMap parentBits
            ++ (rest)))))
    (by simpa using hS18)
  have hSF : bv.bits.drop (bv.readPos + 20 + 3 + 11 + 11 + 11 + 11 + 11 + 3 + 3 + 3 + 3 + 3 + 3 + 3 + 3 + 3 + 3 + 4 + 24 * (c.factor_id_array.take 15).length) =
        writeBits (c.skill_array.take 63).length 6
            ++ ((c.skill_array.take 63).flatMap skillBits
            ++ (writeBits (c.succession_chara_array.take 3).length 2
            ++ ((c.succession_chara_array.take 3).flatMap parentBits
            ++ (rest)))) := by
    have := hF.2
    simpa using this
  have hRsc : ({ bv with readPos := bv.readPos + 20 + 3 + 11 + 11 + 11 + 11 + 11 + 3 + 3 + 3 + 3 + 3 + 3 + 3 + 3 + 3 + 3 + 4 + 24 * (c.factor_id_array.take 15).length } : BitVector).read 6
      = ((c.skill_array.take 63).length, { bv with readPos := bv.readPos + 20 + 3 + 11 + 11 + 11 + 11 + 11 + 3 + 3 + 3 + 3 + 3 + 3 + 3 + 3 + 3 + 3 + 4 + 24 * (c.factor_id_array.take 15).length + 6 }) := by
    have := BitVector.read_chunk ({ bv with readPos := bv.readPos + 20 + 3 + 11 + 11 + 11 + 11 + 11 + 3 + 3 + 3 + 3 + 3 + 3 + 3 + 3 + 3 + 3 + 4 + 24 * (c.factor_id_array.take 15).length }) hSF
      (show (c.skill_array.take 63).length < 2 ^ 6 by
        have hle := List.length_take_le 63 c.skill_array
        have h64 : (2 : Nat) ^ 6 = 64 := rfl
        omega)
    simpa using this
  have hSsc : bv.bits.drop (bv.readPos + 20 + 3 + 11 + 11 + 11 + 11 + 11 + 3 + 3 + 3 + 3 + 3 + 3 + 3 + 3 + 3 + 3 + 4 + 24 * (c.factor_id_array.take 15).length + 6) =
        (c.skill_array.take 63).flatMap skillBits
            ++ (writeBits (c.succession_chara_array.take 3).length 2
            ++ ((c.succession_chara_array.take 3).flatMap parentBits
            ++ (rest))) := by
    have := BitVector.drop_chunk ({ bv with readPos := bv.readPos + 20 + 3 + 11 + 11 + 11 + 11 + 11 + 3 + 3 + 3 + 3 + 3 + 3 + 3 + 3 + 3 + 3 + 4 + 24 * (c.factor_id_array.take 15).length }) hSF
    simpa using this
  have hSk := readSkills_chunk (c.skill_array.take 63)
    (fun x hx => hskill x (List.take_subset _ _ hx))
    { bv with readPos := bv.readPos + 20 + 3 + 11 + 11 + 11 + 11 + 11 + 3 + 3 + 3 + 3 + 3 + 3 + 3 + 3 + 3 + 3 + 4 + 24 * (c.factor_id_array.take 15).length + 6 }
    (writeBits (c.succession_chara_array.take 3).length 2
            ++ ((c.succession_chara_array.take 3).flatMap parentBits
            ++ (rest)))
    (by simpa using hSsc)
  have hSS : bv.bits.drop (bv.readPos + 20 + 3 + 11 + 11 + 11 + 11 + 11 + 3 + 3 + 3 + 3 + 3 + 3 + 3 + 3 + 3 + 3 + 4 + 24 * (c.factor_id_array.take 15).length + 6 + 17 * (c.skill_array.take 63).length) =
        writeBits (c.succession_chara_array.take 3).length 2
            ++ ((c.succession_chara_array.take 3).flatMap parentBits
            ++ (rest)) := by
    have := hSk.2
    simpa using this
  have hRpc : ({ bv with readPos := bv.readPos + 20 + 3 + 11 + 11 + 11 + 11 + 11 + 3 + 3 + 3 + 3 + 3 + 3 + 3 + 3 + 3 + 3 + 4 + 24 * (c.factor_id_array.take 15).length + 6 + 17 * (c.skill_array.take 63).length } : BitVector).read 2
      = ((c.succession_chara_array.take 3).length, { bv with readPos := bv.readPos + 20 + 3 + 11 + 11 + 11 + 11 + 11 + 3 + 3 + 3 + 3 + 3 + 3 + 3 + 3 + 3 + 3 + 4 + 24 * (c.factor_id_array.take 15).length + 6 + 17 * (c.skill_array.take 63).length + 2 }) := by
    have := BitVector.read_chunk ({ bv with readPos := bv.readPos + 20 + 3 + 11 + 11 + 11 + 11 + 11 + 3 + 3 + 3 + 3 + 3 + 3 + 3 + 3 + 3 + 3 + 4 + 24 * (c.factor_id_array.take 15).length + 6 + 17 * (c.skill_array.take 63).length }) hSS
      (show (c.succession_chara_array.take 3).length < 2 ^ 2 by
        have hle := List.length_take_le 3 c.succession_chara_array
        have h4 : (2 : Nat) ^ 2 = 4 := rfl
        omega)
    simpa using this
  have hSpc : bv.bits.drop (bv.readPos + 20 + 3 + 11 + 11 + 11 + 11 + 11 + 3 + 3 + 3 + 3 + 3 + 3 + 3 + 3 + 3 + 3 + 4 + 24 * (c.factor_id_array.take 15).length + 6 + 17 * (c.skill_array.take 63).length + 2) =
        (c.succession_chara_array.take 3).flatMap parentBits
            ++ (rest) := by
    have := BitVector.drop_chunk ({ bv with readPos := bv.readPos + 20 + 3 + 11 + 11 + 11 + 11 + 11 + 3 + 3 + 3 + 3 + 3 + 3 + 3 + 3 + 3 + 3 + 4 + 24 * (c.factor_id_array.take 15).length + 6 + 17 * (c.skill_array.take 63).length }) hSS
    simpa using this
  have hP := readParents_chunk (c.succession_chara_array.take 3) 0
    (fun x hx => hpar x (List.take_subset _ _ hx))
    { bv with readPos := bv.readPos + 20 + 3 + 11 + 11 + 11 + 11 + 11 + 3 + 3 + 3 + 3 + 3 + 3 + 3 + 3 + 3 + 3 + 4 + 24 * (c.factor_id_array.take 15).length + 6 + 17 * (c.skill_array.take 63).length + 2 }
    rest
    (by simpa using hSpc)
  have hSP : bv.bits.drop (bv.readPos + 20 + 3 + 11 + 11 + 11 + 11 + 11 + 3 + 3 + 3 + 3 + 3 + 3 + 3 + 3 + 3 + 3 + 4 + 24 * (c.factor_id_array.take 15).length + 6 + 17 * (c.skill_array.take 63).length + 2 + ((c.succession_chara_array.take 3).flatMap parentBits).length) = rest := by
    have := hP.2
    simpa using this
  have hfinal : bv.readPos + 20 + 3 + 11 + 11 + 11 + 11 + 11 + 3 + 3 + 3 + 3 + 3 + 3 + 3 + 3 + 3 + 3 + 4 + 24 * (c.factor_id_array.take 15).length + 6 + 17 * (c.skill_array.take 63).length + 2 + ((c.succession_chara_array.take 3).flatMap parentBits).length
      = bv.readPos + (charaBits c).length := by
    rw [charaBits_length]
    omega
  constructor
  · simp only [decodeChara]
    rw [if_neg hguard]
    simp only [hR0, hR1, hR2, hR3, hR4, hR5, hR6, hR7, hR8, hR9, hR10, hR11, hR12, hR13, hR14, hR15, hR16, hR17, hF.1, hRsc, hSk.1, hRpc, hP.1]
    rw [hfinal]
    have htl : c.talent_level - 1 + 1 = c.talent_level := by omega
    have hapt1 : c.proper_distance_short - 1 + 1 = c.proper_distance_short := by omega
    have hapt2 : c.proper_distance_mile - 1 + 1 = c.proper_distance_mile := by omega
    have hapt3 : c.proper_distance_middle - 1 + 1 = c.proper_distance_middle := by omega
    have hapt4 : c.proper_distance_long - 1 + 1 = c.proper_distance_long := by omega
    have hapt5 : c.proper_ground_turf - 1 + 1 = c.proper_ground_turf := by omega
    have hapt6 : c.proper_ground_dirt - 1 + 1 = c.proper_ground_dirt := by omega
    have hapt7 : c.proper_running_style_nige - 1 + 1 = c.proper_running_style_nige := by omega
    have hapt8 : c.proper_running_style_senko - 1 + 1 = c.proper_running_style_senko := by omega
    have hapt9 : c.proper_running_style_sashi - 1 + 1 = c.proper_running_style_sashi := by omega
    have hapt10 : c.proper_running_style_oikomi - 1 + 1 = c.proper_running_style_oikomi := by omega
    simp [decodedOf, htl, hapt1, hapt2, hapt3, hapt4, hapt5, hapt6, hapt7, hapt8, hapt9, hapt10]
  · rw [← hfinal]
    exact hSP

/-! ## Collection loop behaviour -/

/-- On a stream with fewer than 108 unread bits, `decodeChara` fails without
touching the stream (the guard precedes every read). -/
theorem decodeChara_none_of_lt {bv : BitVector} (h : bv.remaining < 108) :
    decodeChara bv = (none, bv) := by
  rw [decodeChara, if_pos h]

/-- On a stream with at least 108 unread bits, `decodeChara` always produces
a record (there is no other failure path). -/
theorem decodeChara_isSome_of_ge {bv : BitVector} (h : ¬ bv.remaining < 108) :
    (decodeChara bv).1.isSome := by
  rw [decodeChara, if_neg h]
  rfl

/-- `decodeChara` fails exactly when fewer than 108 bits remain unread. -/
theorem decodeChara_none_iff (bv : BitVector) :
    (decodeChara bv).1 = none ↔ bv.remaining < 108 := by
  by_cases h : bv.remaining < 108
  · simp [decodeChara_none_of_lt h, h]
  · have := decodeChara_isSome_of_ge h
    simp only [Option.isSome_iff_exists] at this
    obtain ⟨c, hc⟩ := this
    simp [hc, h]

/-- A failing `decodeChara` leaves the stream unchanged, so the rest of the
decode loop appends nothing. -/
theorem decodeLoop_of_none : ∀ (n : Nat) (bv : BitVector) (acc : List CharaData),
    (decodeChara bv).1 = none → decodeLoop bv acc n = acc := by
  intro n
  induction n with
  | zero => intro bv acc _; rfl
  | succ n ih =>
      intro bv acc h
      have hlt : bv.remaining < 108 := (decodeChara_none_iff bv).mp h
      have heq := decodeChara_none_of_lt hlt
      show decodeLoop bv acc (n + 1) = acc
      rw [decodeLoop, heq]
      exact ih bv acc h

/-- Decoding `l.length` consecutive encoded records appends exactly their
decoded forms, in order. -/
theorem decodeLoop_chunk : ∀ (l : List CharaData), (∀ c ∈ l, CharaEncodable c) →
    ∀ (bv : BitVector) (acc : List CharaData) (rest : List Bool),
      bv.bits.drop bv.readPos = l.flatMap charaBits ++ rest →
      decodeLoop bv acc l.length = acc ++ l.map decodedOf := by
  intro l
  induction l with
  | nil => intro _ bv acc rest _; simp [decodeLoop]
  | cons c cs ih =>
      intro hc bv acc rest hs
      simp only [List.flatMap_cons, List.append_assoc] at hs
      have hchunk := decodeChara_chunk c (hc c (by simp)) bv
        (cs.flatMap charaBits ++ rest) hs
      show decodeLoop bv acc (cs.length + 1) = acc ++ (c :: cs).map decodedOf
      rw [decodeLoop, hchunk.1]
      show decodeLoop { bv with readPos := bv.readPos + (charaBits c).length }
        (acc ++ [decodedOf c]) cs.length = acc ++ (c :: cs).map decodedOf
      rw [ih (fun x hx => hc x (by simp [hx]))
        { bv with readPos := bv.readPos + (charaBits c).length }
        (acc ++ [decodedOf c]) rest (by simpa using hchunk.2)]
      simp

/-! ## Base64 text round trips -/

set_option maxRecDepth 4000 in
/-- Looking up the character at a valid alphabet index finds that index
again (the alphabet has no duplicate symbols). -/
theorem alphabet_lookup : ∀ v, v < 64 →
    base64Chars.findIdx? (fun x => x == base64Chars.getD v 'A') = some v := by
  decide

set_option maxRecDepth 4000 in
/-- Every alphabet character is found at an index below 64, and the alphabet
maps that index back to the character. -/
theorem alphabet_mem_lookup : ∀ c ∈ base64Chars,
    base64Chars.findIdx? (fun x => x == c)
      = some ((base64Chars.findIdx? (fun x => x == c)).getD 0) ∧
    (base64Chars.findIdx? (fun x => x == c)).getD 0 < 64 ∧
    base64Chars.getD ((base64Chars.findIdx? (fun x => x == c)).getD 0) 'A' = c := by
  decide

/-- The bits contributed by one input character of `fromBase64`: six bits
for alphabet characters, nothing for anything else. -/
def charBits (c : Char) : List Bool :=
  match base64Chars.findIdx? (fun x => x == c) with
  | none => []
  | some value => writeBits value 6

/-- `fromBase64` produces the concatenation of per-character bit chunks. -/
theorem fromBase64_eq_flatMap (str : String) :
    BitVector.fromBase64 str = { bits := str.data.flatMap charBits, readPos := 0 } := by
  have key : ∀ (cs : List Char) (init : List Bool),
      cs.foldl (fun bits c =>
        match base64Chars.findIdx? (fun x => x == c) with
        | none => bits
        | some value => bits ++ writeBits value 6) init
        = init ++ cs.flatMap charBits := by
    intro cs
    induction cs with
    | nil => intro init; simp
    | cons c cs ih =>
        intro init
        rw [List.foldl_cons]
        cases hfind : base64Chars.findIdx? (fun x => x == c) with
        | none => rw [ih]; simp [charBits, hfind]
        | some v => rw [ih]; simp [charBits, hfind]
  rw [BitVector.fromBase64]
  rw [key]
  simp

/-- The accumulator contributes its high bits independently of the stream. -/
theorem readAccum_split (L : Nat) : ∀ (bits : List Bool) (pos acc : Nat),
    readAccum bits pos acc L = acc * 2 ^ L + readAccum bits pos 0 L := by
  induction L with
  | zero => intro bits pos acc; simp [readAccum_zero]
  | succ L ih =>
      intro bits pos acc
      rw [readAccum_succ, readAccum_succ, ih, ih bits (pos + 1) (2 * 0 + _)]
      ring

/-- Writing back the value read from a bit list reproduces the list. -/
theorem writeBits_readAccum_self : ∀ (g : List Bool),
    writeBits (readAccum g 0 0 g.length) g.length = g := by
  intro g
  induction g with
  | nil => rfl
  | cons b t ih =>
      have h1 : readAccum (b :: t) 0 0 (t.length + 1)
          = b.toNat * 2 ^ t.length + readAccum t 0 0 t.length := by
        rw [readAccum_succ, readAccum_drop]
        simp only [List.drop_succ_cons, List.drop_zero, List.getD_cons_zero]
        rw [readAccum_split]
        ring
      have hV : readAccum t 0 0 t.length < 2 ^ t.length := by
        have := readAccum_lt t.length t 0 0
        simpa using this
      rw [List.length_cons, h1, writeBits_succ]
      have hdiv : (b.toNat * 2 ^ t.length + readAccum t 0 0 t.length) / 2 ^ t.length
          = b.toNat := by
        rw [Nat.mul_comm b.toNat, Nat.mul_add_div (Nat.pos_pow_of_pos _ (by norm_num))]
        rw [Nat.div_eq_of_lt hV]
        omega
      have hbit : (b.toNat * 2 ^ t.length + readAccum t 0 0 t.length).testBit t.length
          = b := by
        rw [Nat.testBit_to_div_mod, hdiv]
        cases b <;> rfl
      have hmod : (b.toNat * 2 ^ t.length + readAccum t 0 0 t.length) % 2 ^ t.length
          = readAccum t 0 0 t.length := by
        rw [Nat.mul_comm b.toNat, Nat.mul_add_mod, Nat.mod_eq_of_lt hV]
      have htail : writeBits (b.toNat * 2 ^ t.length + readAccum t 0 0 t.length) t.length
          = t := by
        rw [← writeBits_mod, hmod, ih]
      rw [hbit, htail]

/-- Padding is the identity on streams already aligned to 6 bits. -/
theorem padToBase64_of_mod {bv : BitVector} (h : bv.bits.length % 6 = 0) :
    bv.padToBase64 = bv := by
  simp [BitVector.padToBase64, h]

/-- `fromBase64` of a `base64Group` rendering reproduces the bits (for
streams aligned to 6 bits, as produced by padding). -/
theorem fromBase64_mk_base64Group : ∀ (n : Nat) (bits : List Bool),
    bits.length = 6 * n →
    BitVector.fromBase64 (String.mk (base64Group bits))
      = { bits := bits, readPos := 0 } := by
  intro n
  induction n with
  | zero =>
      intro bits h
      have : bits = [] := List.eq_nil_of_length_eq_zero (by omega)
      subst this
      rw [fromBase64_eq_flatMap]
      rfl
  | succ n ih =>
      intro bits h
      rcases bits with _ | ⟨b0, bits⟩
      · rw [List.length_nil] at h; omega
      rw [List.length_cons] at h
      rcases bits with _ | ⟨b1, bits⟩
      · rw [List.length_nil] at h; omega
      rw [List.length_cons] at h
      rcases bits with _ | ⟨b2, bits⟩
      · rw [List.length_nil] at h; omega
      rw [List.length_cons] at h
      rcases bits with _ | ⟨b3, bits⟩
      · rw [List.length_nil] at h; omega
      rw [List.length_cons] at h
      rcases bits with _ | ⟨b4, bits⟩
      · rw [List.length_nil] at h; omega
      rw [List.length_cons] at h
      rcases bits with _ | ⟨b5, bits⟩
      · rw [List.length_nil] at h; omega
      rw [List.length_cons] at h
      have hlen : bits.length = 6 * n := by omega
      have hv : readAccum [b0, b1, b2, b3, b4, b5] 0 0 6 < 64 := by
        have := readAccum_lt 6 [b0, b1, b2, b3, b4, b5] 0 0
        simpa using this
      have hgroup : base64Group (b0 :: b1 :: b2 :: b3 :: b4 :: b5 :: bits)
          = base64Chars.getD (readAccum [b0, b1, b2, b3, b4, b5] 0 0 6) 'A'
            :: base64Group bits := rfl
      have hchar : charBits
            (base64Chars.getD (readAccum [b0, b1, b2, b3, b4, b5] 0 0 6) 'A')
          = writeBits (readAccum [b0, b1, b2, b3, b4, b5] 0 0 6) 6 := by
        rw [charBits, alphabet_lookup _ hv]
      have hgbits : writeBits (readAccum [b0, b1, b2, b3, b4, b5] 0 0 6) 6
          = [b0, b1, b2, b3, b4, b5] := by
        have := writeBits_readAccum_self [b0, b1, b2, b3, b4, b5]
        simpa using this
      have ihflat : (base64Group bits).flatMap charBits = bits := by
        have := ih bits hlen
        rw [fromBase64_eq_flatMap] at this
        have hb := congrArg BitVector.bits this
        simpa using hb
      rw [hgroup, fromBase64_eq_flatMap]
      congr 1
      show (base64Chars.getD (readAccum [b0, b1, b2, b3, b4, b5] 0 0 6) 'A'
          :: base64Group bits).flatMap charBits = _
      rw [List.flatMap_cons, hchar, hgbits, ihflat]
      rfl

/-! ## The collection round trip -/

/-- `encodeCharas` as a single bit stream: version byte, count byte, then
the concatenated record chunks, converted to text. -/
theorem encodeCharas_eq (l : List CharaData) :
    encodeCharas l = BitVector.toBase64
      { bits := writeBits ENCODING_VERSION 8 ++ writeBits (min l.length 255) 8
          ++ (l.take 255).flatMap charaBits,
        readPos := 0 } := by
  rw [encodeCharas]
  rw [foldl_write_append charaBits (fun bv chara => encodeChara bv chara)
    (fun bv x => encodeChara_eq bv x)]
  simp [BitVector.write]

/-- Decoding an encoded collection yields exactly the decoded forms of the
first 255 records, in order. -/
theorem decodeCharas_encodeCharas (l : List CharaData)
    (h : ∀ c ∈ l, CharaEncodable c) :
    decodeCharas (encodeCharas l) = (l.take 255).map decodedOf := by
  rw [encodeCharas_eq]
  obtain ⟨B, hB⟩ : ∃ B, B = writeBits ENCODING_VERSION 8
      ++ writeBits (min l.length 255) 8 ++ (l.take 255).flatMap charaBits :=
    ⟨_, rfl⟩
  rw [← hB]
  obtain ⟨P, hP⟩ : ∃ P, P = List.replicate ((6 - B.length % 6) % 6) (false : Bool) :=
    ⟨_, rfl⟩
  have hpadded : (BitVector.padToBase64 { bits := B, readPos := 0 }).bits = B ++ P := by
    rw [hP]; rfl
  have hlenmod : (B ++ P).length % 6 = 0 := by
    rw [hP]
    simp only [List.length_append, List.length_replicate]
    omega
  have h6n : (B ++ P).length = 6 * ((B ++ P).length / 6) := by omega
  have hfrom : BitVector.fromBase64
        (BitVector.toBase64 { bits := B, readPos := 0 })
      = { bits := B ++ P, readPos := 0 } := by
    rw [BitVector.toBase64, hpadded]
    exact fromBase64_mk_base64Group _ (B ++ P) h6n
  have hsr : ({ bits := B ++ P, readPos := 0 } : BitVector).bits.drop 0
      = writeBits ENCODING_VERSION 8
        ++ (writeBits (min l.length 255) 8 ++ ((l.take 255).flatMap charaBits ++ P)) := by
    rw [List.drop_zero, hB]
    simp only [List.append_assoc]
  have hr1 : ({ bits := B ++ P, readPos := 0 } : BitVector).read 8
      = (ENCODING_VERSION, { bits := B ++ P, readPos := 8 }) := by
    have := BitVector.read_chunk ({ bits := B ++ P, readPos := 0 }) hsr (show ENCODING_VERSION < 2 ^ 8 by decide)
    simpa using this
  have hs1 : (B ++ P).drop 8
      = writeBits (min l.length 255) 8 ++ ((l.take 255).flatMap charaBits ++ P) := by
    have := BitVector.drop_chunk ({ bits := B ++ P, readPos := 0 }) hsr
    simpa using this
  have hr2 : ({ bits := B ++ P, readPos := 8 } : BitVector).read 8
      = (min l.length 255, { bits := B ++ P, readPos := 16 }) := by
    have := BitVector.read_chunk ({ bits := B ++ P, readPos := 8 }) hs1
      (show min l.length 255 < 2 ^ 8 by
        have h256 : (2 : Nat) ^ 8 = 256 := rfl
        omega)
    simpa using this
  have hs2 : (B ++ P).drop 16
      = (l.take 255).flatMap charaBits ++ P := by
    have := BitVector.drop_chunk ({ bits := B ++ P, readPos := 8 }) hs1
    simpa using this
  have hloop := decodeLoop_chunk (l.take 255)
    (fun c hc => h c (List.take_subset _ _ hc))
    { bits := B ++ P, readPos := 16 } [] P (by simpa using hs2)
  have hcount : min l.length 255 = (l.take 255).length := by
    rw [List.length_take]
    omega
  simp only [decodeCharas, hfrom, hr1, hr2]
  rw [hcount, hloop]
  simp

/-! ## Text-side round trip and degenerate inputs -/

/-- An alphabet character's chunk is its six index bits. -/
theorem charBits_of_mem {c : Char} (hc : c ∈ base64Chars) :
    charBits c
      = writeBits ((base64Chars.findIdx? (fun x => x == c)).getD 0) 6 := by
  obtain ⟨hfind, _, _⟩ := alphabet_mem_lookup c hc
  rw [charBits, hfind]
  rfl

/-- A non-alphabet character is skipped: it contributes no bits. -/
theorem charBits_of_not_mem {c : Char} (hc : c ∉ base64Chars) :
    charBits c = [] := by
  have hnone : base64Chars.findIdx? (fun x => x == c) = none := by
    rw [List.findIdx?_eq_none_iff]
    intro x hx
    simp only [beq_eq_false_iff_ne, ne_eq]
    intro hxc
    exact hc (hxc ▸ hx)
  rw [charBits, hnone]

/-- One unfolding step of the 6-bit grouping. -/
theorem base64Group_cons6 (b0 b1 b2 b3 b4 b5 : Bool) (rest : List Bool) :
    base64Group (b0 :: b1 :: b2 :: b3 :: b4 :: b5 :: rest)
      = base64Chars.getD (readAccum [b0, b1, b2, b3, b4, b5] 0 0 6) 'A'
        :: base64Group rest := rfl

/-- Grouping a written 6-bit chunk renders the value's alphabet character. -/
theorem base64Group_writeBits (v : Nat) (rest : List Bool) :
    base64Group (writeBits v 6 ++ rest)
      = base64Chars.getD (v % 2 ^ 6) 'A' :: base64Group rest := by
  have hre := readAccum_writeBits 6 v 0 []
  rw [List.append_nil] at hre
  have hlist : writeBits v 6 ++ rest
      = v.testBit 5 :: v.testBit 4 :: v.testBit 3 :: v.testBit 2
        :: v.testBit 1 :: v.testBit 0 :: rest := rfl
  rw [hlist, base64Group_cons6]
  have hlist2 : [v.testBit 5, v.testBit 4, v.testBit 3, v.testBit 2,
      v.testBit 1, v.testBit 0] = writeBits v 6 := rfl
  rw [hlist2]
  have hval : readAccum (writeBits v 6) 0 0 6 = v % 2 ^ 6 := by
    simpa using hre
  rw [hval]

/-- Regrouping the six index bits of each alphabet character recovers the
characters. -/
theorem base64Group_flatMap_charBits : ∀ (cs : List Char),
    (∀ c ∈ cs, c ∈ base64Chars) →
    base64Group (cs.flatMap charBits) = cs := by
  intro cs
  induction cs with
  | nil => intro _; rfl
  | cons c cs ih =>
      intro hmem
      have hc1 : c ∈ base64Chars := hmem c (by simp)
      obtain ⟨hfind, hlt, hget⟩ := alphabet_mem_lookup c hc1
      rw [List.flatMap_cons, charBits_of_mem hc1, base64Group_writeBits]
      have h64 : (2 : Nat) ^ 6 = 64 := rfl
      rw [Nat.mod_eq_of_lt (by omega), hget,
        ih (fun x hx => hmem x (by simp [hx]))]

/-- Alphabet-only inputs contribute exactly six bits per character. -/
theorem flatMap_charBits_length_of_mem : ∀ (cs : List Char),
    (∀ c ∈ cs, c ∈ base64Chars) →
    (cs.flatMap charBits).length = 6 * cs.length := by
  intro cs
  induction cs with
  | nil => intro _; rfl
  | cons c cs ih =>
      intro hmem
      rw [List.flatMap_cons, List.length_append,
        charBits_of_mem (hmem c (by simp)), writeBits_length,
        ih (fun x hx => hmem x (by simp [hx])), List.length_cons]
      ring

/-- Text round trip: converting alphabet-only text to bits and back is the
identity (no length condition is even needed: 6-bit chunks are always
aligned). -/
theorem toBase64_fromBase64 (s : String) (hmem : ∀ c ∈ s.data, c ∈ base64Chars) :
    (BitVector.fromBase64 s).toBase64 = s := by
  rw [fromBase64_eq_flatMap, BitVector.toBase64]
  have hlen := flatMap_charBits_length_of_mem s.data hmem
  have hmod : ({ bits := s.data.flatMap charBits, readPos := 0 }
      : BitVector).bits.length % 6 = 0 := by
    show (s.data.flatMap charBits).length % 6 = 0
    rw [hlen]
    omega
  rw [padToBase64_of_mod hmod]
  show String.mk (base64Group (s.data.flatMap charBits)) = s
  rw [base64Group_flatMap_charBits s.data hmem]


/-- Inputs with no alphabet characters produce an empty stream. -/
theorem fromBase64_of_invalid (s : String) (h : ∀ c ∈ s.data, c ∉ base64Chars) :
    BitVector.fromBase64 s = { bits := [], readPos := 0 } := by
  rw [fromBase64_eq_flatMap]
  have key : ∀ (cs : List Char), (∀ c ∈ cs, c ∉ base64Chars) →
      cs.flatMap charBits = [] := by
    intro cs
    induction cs with
    | nil => intro _; rfl
    | cons c cs ih =>
        intro hmem
        rw [List.flatMap_cons, charBits_of_not_mem (hmem c (by simp)),
          ih (fun x hx => hmem x (by simp [hx]))]
        rfl
  rw [key s.data h]

/-- If the input provides fewer bits than the 16-bit header, the decode loop
starts with a negative remainder and every entry fails. -/
theorem decodeCharas_of_short (s : String)
    (h : (BitVector.fromBase64 s).bits.length < 16) :
    decodeCharas s = [] := by
  obtain ⟨bits, hbits⟩ : ∃ bits, BitVector.fromBase64 s
      = { bits := bits, readPos := 0 } := ⟨_, fromBase64_eq_flatMap s⟩
  have hlt : bits.length < 16 := by
    rw [hbits] at h
    exact h
  simp only [decodeCharas, hbits]
  apply decodeLoop_of_none
  rw [decodeChara_none_iff]
  simp only [BitVector.read, BitVector.remaining]
  omega

/-! ## Structural invariants of every decoded record -/

theorem readFactors_length : ∀ (n : Nat) (bv : BitVector),
    ((readFactors bv n).1).length = n := by
  intro n
  induction n with
  | zero => intro bv; rfl
  | succ n ih => intro bv; simp [readFactors, ih]

theorem readSkills_length : ∀ (n : Nat) (bv : BitVector),
    ((readSkills bv n).1).length = n := by
  intro n
  induction n with
  | zero => intro bv; rfl
  | succ n ih => intro bv; simp [readSkills, ih]

theorem readSkills_levels : ∀ (n : Nat) (bv : BitVector),
    ∀ x ∈ (readSkills bv n).1, x.level = 1 ∨ x.level = 2 := by
  intro n
  induction n with
  | zero => intro bv x hx; simp [readSkills] at hx
  | succ n ih =>
      intro bv x hx
      simp only [readSkills, List.mem_cons] at hx
      rcases hx with hx | hx
      · subst hx
        by_cases hf : ((bv.read 16).2.read 1).1 ≠ 0 <;> simp [hf]
      · exact ih _ x hx

theorem readParents_length : ∀ (n i : Nat) (bv : BitVector),
    ((readParents bv i n).1).length = n := by
  intro n
  induction n with
  | zero => intro i bv; rfl
  | succ n ih => intro i bv; simp [readParents, ih]

theorem readParents_positions : ∀ (n i : Nat) (bv : BitVector) (j : Nat)
    (hj : j < ((readParents bv i n).1).length),
    (((readParents bv i n).1)[j]).position_id = i + j + 1 := by
  intro n
  induction n with
  | zero => intro i bv j hj; simp [readParents] at hj
  | succ n ih =>
      intro i bv j hj
      match j with
      | 0 => simp [readParents]
      | j + 1 =>
          have hj' : j < ((readParents ((readFactors
              (((bv.read 20).2.read 3).2.read 4).2
              ((((bv.read 20).2.read 3).2.read 4).1)).2) (i + 1) n).1).length := by
            simp only [readParents, List.length_cons] at hj
            simpa using Nat.lt_of_succ_lt_succ hj
          have := ih (i + 1) ((readFactors
              ((((bv.read 20).2.read 3).2.read 4).2)
              ((((bv.read 20).2.read 3).2.read 4).1)).2) j hj'
          simp only [readParents, List.getElem_cons_succ]
          rw [this]
          omega

/-- Bound on any `n`-bit read, whatever the stream contents. -/
theorem readAccum_lt0 (L : Nat) (bits : List Bool) (pos : Nat) :
    readAccum bits pos 0 L < 2 ^ L := by
  have := readAccum_lt L bits pos 0
  simpa using this

/-- The structural invariants every record produced by `decodeChara`
satisfies, whatever the input bits: range-limited fields, bounded lists,
collapsed skill levels, 1-based parent positions, placeholder metadata. -/
def DecodedWF (d : CharaData) : Prop :=
  1 ≤ d.talent_level ∧ d.talent_level ≤ 8 ∧
  d.speed ≤ 2047 ∧ d.stamina ≤ 2047 ∧ d.power ≤ 2047 ∧
  d.guts ≤ 2047 ∧ d.wiz ≤ 2047 ∧
  1 ≤ d.proper_distance_short ∧ d.proper_distance_short ≤ 8 ∧
  1 ≤ d.proper_distance_mile ∧ d.proper_distance_mile ≤ 8 ∧
  1 ≤ d.proper_distance_middle ∧ d.proper_distance_middle ≤ 8 ∧
  1 ≤ d.proper_distance_long ∧ d.proper_distance_long ≤ 8 ∧
  1 ≤ d.proper_ground_turf ∧ d.proper_ground_turf ≤ 8 ∧
  1 ≤ d.proper_ground_dirt ∧ d.proper_ground_dirt ≤ 8 ∧
  1 ≤ d.proper_running_style_nige ∧ d.proper_running_style_nige ≤ 8 ∧
  1 ≤ d.proper_running_style_senko ∧ d.proper_running_style_senko ≤ 8 ∧
  1 ≤ d.proper_running_style_sashi ∧ d.proper_running_style_sashi ≤ 8 ∧
  1 ≤ d.proper_running_style_oikomi ∧ d.proper_running_style_oikomi ≤ 8 ∧
  d.factor_id_array.length ≤ 15 ∧
  d.skill_array.length ≤ 63 ∧
  (∀ s ∈ d.skill_array, s.level = 1 ∨ s.level = 2) ∧
  d.succession_chara_array.length ≤ 3 ∧
  (∀ j, ∀ hj : j < d.succession_chara_array.length,
    (d.succession_chara_array[j]).position_id = j + 1) ∧
  d.rarity = 3 ∧
  d.support_card_list = []

instance (d : CharaData) : Decidable (DecodedWF d) := by
  unfold DecodedWF; infer_instance

/-- Bound on the value component of any read. -/
theorem read_fst_lt (bv : BitVector) (L : Nat) : (bv.read L).1 < 2 ^ L :=
  readAccum_lt0 L bv.bits bv.readPos

theorem read3_lower (bv : BitVector) : 1 ≤ (bv.read 3).1 + 1 := by omega

theorem read3_upper (bv : BitVector) : (bv.read 3).1 + 1 ≤ 8 := by
  have := read_fst_lt bv 3
  have h8 : (2 : Nat) ^ 3 = 8 := rfl
  omega

theorem read11_upper (bv : BitVector) : (bv.read 11).1 ≤ 2047 := by
  have := read_fst_lt bv 11
  have h2k : (2 : Nat) ^ 11 = 2048 := rfl
  omega

theorem readFactors_le (bv bv2 : BitVector) :
    ((readFactors bv2 ((bv.read 4).1)).1).length ≤ 15 := by
  rw [readFactors_length]
  have := read_fst_lt bv 4
  have h16 : (2 : Nat) ^ 4 = 16 := rfl
  omega

theorem readSkills_le (bv bv2 : BitVector) :
    ((readSkills bv2 ((bv.read 6).1)).1).length ≤ 63 := by
  rw [readSkills_length]
  have := read_fst_lt bv 6
  have h64 : (2 : Nat) ^ 6 = 64 := rfl
  omega

theorem readParents_le (bv bv2 : BitVector) (i : Nat) :
    ((readParents bv2 i ((bv.read 2).1)).1).length ≤ 3 := by
  rw [readParents_length]
  have := read_fst_lt bv 2
  have h4 : (2 : Nat) ^ 2 = 4 := rfl
  omega

theorem readParents_positions0 (bv : BitVector) (n : Nat) :
    ∀ j, ∀ hj : j < ((readParents bv 0 n).1).length,
      (((readParents bv 0 n).1)[j]).position_id = j + 1 := by
  intro j hj
  have := readParents_positions n 0 bv j hj
  omega

set_option maxHeartbeats 1000000 in
/-- Every record `decodeChara` produces is structurally well-formed. -/
theorem decodeChara_wf {bv : BitVector} {d : CharaData} {bv' : BitVector}
    (h : decodeChara bv = (some d, bv')) : DecodedWF d := by
  by_cases hg : bv.remaining < 108
  · rw [decodeChara_none_of_lt hg] at h
    simp at h
  · rw [decodeChara, if_neg hg] at h
    simp only [Prod.mk.injEq, Option.some.injEq] at h
    obtain ⟨hd, -⟩ := h
    subst hd
    exact ⟨read3_lower _, read3_upper _,
      read11_upper _, read11_upper _, read11_upper _,
      read11_upper _, read11_upper _,
      read3_lower _, read3_upper _, read3_lower _, read3_upper _,
      read3_lower _, read3_upper _, read3_lower _, read3_upper _,
      read3_lower _, read3_upper _, read3_lower _, read3_upper _,
      read3_lower _, read3_upper _, read3_lower _, read3_upper _,
      read3_lower _, read3_upper _, read3_lower _, read3_upper _,
      readFactors_le _ _, readSkills_le _ _, readSkills_levels _ _,
      readParents_le _ _ _, readParents_positions0 _ _, rfl, rfl⟩

/-- Well-formedness is preserved through the decode loop. -/
theorem decodeLoop_wf : ∀ (n : Nat) (bv : BitVector) (acc : List CharaData),
    (∀ d ∈ acc, DecodedWF d) → ∀ d ∈ decodeLoop bv acc n, DecodedWF d := by
  intro n
  induction n with
  | zero => intro bv acc hacc d hd; exact hacc d hd
  | succ n ih =>
      intro bv acc hacc d hd
      rw [decodeLoop] at hd
      rcases hchara : decodeChara bv with ⟨o, bv2⟩
      rw [hchara] at hd
      cases o with
      | some c =>
          refine ih bv2 (acc ++ [c]) ?_ d hd
          intro x hx
          rcases List.mem_append.mp hx with hx | hx
          · exact hacc x hx
          · have : x = c := by simpa using hx
            subst this
            exact decodeChara_wf hchara
      | none => exact ih bv2 acc hacc d hd

theorem decodeLoop_length_le : ∀ (n : Nat) (bv : BitVector) (acc : List CharaData),
    (decodeLoop bv acc n).length ≤ acc.length + n := by
  intro n
  induction n with
  | zero => intro bv acc; simp [decodeLoop]
  | succ n ih =>
      intro bv acc
      rw [decodeLoop]
      rcases hchara : decodeChara bv with ⟨o, bv2⟩
      cases o with
      | some c =>
          show (decodeLoop bv2 (acc ++ [c]) n).length ≤ acc.length + (n + 1)
          have := ih bv2 (acc ++ [c])
          simp only [List.length_append, List.length_cons, List.length_nil] at this
          omega
      | none =>
          show (decodeLoop bv2 acc n).length ≤ acc.length + (n + 1)
          have := ih bv2 acc
          omega

/-- Whatever the input text, every decoded record is well-formed and the
result has at most 255 entries. -/
theorem decodeCharas_wf (s : String) :
    (∀ d ∈ decodeCharas s, DecodedWF d) ∧ (decodeCharas s).length ≤ 255 := by
  rw [decodeCharas]
  constructor
  · exact fun d hd => decodeLoop_wf _ _ [] (by simp) d hd
  · have hcnt := readAccum_lt0 8
      ((BitVector.fromBase64 s).read 8).2.bits
      ((BitVector.fromBase64 s).read 8).2.readPos
    have h256 : (2 : Nat) ^ 8 = 256 := rfl
    have hlen := decodeLoop_length_le
      ((((BitVector.fromBase64 s).read 8).2.read 8)).1
      ((((BitVector.fromBase64 s).read 8).2.read 8)).2 []
    simp only [List.length_nil] at hlen
    have hcnt2 : ((((BitVector.fromBase64 s).read 8).2.read 8)).1 < 256 := by
      have hq : ((((BitVector.fromBase64 s).read 8).2.read 8)).1
          = readAccum ((BitVector.fromBase64 s).read 8).2.bits
              ((BitVector.fromBase64 s).read 8).2.readPos 0 8 := rfl
      rw [hq]
      omega
    omega

/-! ## Domain-range predicates and decoded-parent indexing -/

/-- The documented domain ranges of a record, except the stat bounds
(the encoder clamps stats itself). -/
def CharaInRangeNoStats (c : CharaData) : Prop :=
  c.card_id < 2 ^ 20 ∧
  1 ≤ c.talent_level ∧ c.talent_level ≤ 5 ∧
  (1 ≤ c.proper_distance_short ∧ c.proper_distance_short ≤ 8) ∧
  (1 ≤ c.proper_distance_mile ∧ c.proper_distance_mile ≤ 8) ∧
  (1 ≤ c.proper_distance_middle ∧ c.proper_distance_middle ≤ 8) ∧
  (1 ≤ c.proper_distance_long ∧ c.proper_distance_long ≤ 8) ∧
  (1 ≤ c.proper_ground_turf ∧ c.proper_ground_turf ≤ 8) ∧
  (1 ≤ c.proper_ground_dirt ∧ c.proper_ground_dirt ≤ 8) ∧
  (1 ≤ c.proper_running_style_nige ∧ c.proper_running_style_nige ≤ 8) ∧
  (1 ≤ c.proper_running_style_senko ∧ c.proper_running_style_senko ≤ 8) ∧
  (1 ≤ c.proper_running_style_sashi ∧ c.proper_running_style_sashi ≤ 8) ∧
  (1 ≤ c.proper_running_style_oikomi ∧ c.proper_running_style_oikomi ≤ 8) ∧
  c.factor_id_array.length ≤ 15 ∧
  (∀ f ∈ c.factor_id_array, f < 2 ^ 24) ∧
  c.skill_array.length ≤ 63 ∧
  (∀ s ∈ c.skill_array, s.skill_id < 2 ^ 16) ∧
  c.succession_chara_array.length ≤ 3 ∧
  (∀ p ∈ c.succession_chara_array,
    p.card_id < 2 ^ 20 ∧ 1 ≤ p.talent_level ∧ p.talent_level ≤ 5 ∧
    p.factor_id_array.length ≤ 15 ∧ ∀ f ∈ p.factor_id_array, f < 2 ^ 24)

/-- The full documented domain ranges of a record. -/
def CharaInRange (c : CharaData) : Prop :=
  CharaInRangeNoStats c ∧
  c.speed ≤ 2047 ∧ c.stamina ≤ 2047 ∧ c.power ≤ 2047 ∧
  c.guts ≤ 2047 ∧ c.wiz ≤ 2047

instance (c : CharaData) : Decidable (CharaInRangeNoStats c) := by
  unfold CharaInRangeNoStats; infer_instance

instance (c : CharaData) : Decidable (CharaInRange c) := by
  unfold CharaInRange; infer_instance

/-- Documented ranges imply the wire-width constraints. -/
theorem CharaInRangeNoStats.encodable {c : CharaData}
    (h : CharaInRangeNoStats c) : CharaEncodable c := by
  obtain ⟨h1, h2, h3, h4, h5, h6, h7, h8, h9, h10, h11, h12, h13, h14, h15,
    h16, h17, h18, h19⟩ := h
  refine ⟨h1, h2, by omega, h4, h5, h6, h7, h8, h9, h10, h11, h12, h13,
    h15, h17, ?_⟩
  intro p hp
  obtain ⟨hp1, hp2, hp3, _, hp5⟩ := h19 p hp
  exact ⟨hp1, hp2, by omega, hp5⟩

theorem decodedParents_length (i : Nat) : ∀ (l : List SuccessionCharaData),
    (decodedParents i l).length = l.length := by
  intro l
  induction l generalizing i with
  | nil => rfl
  | cons p ps ih => simp [decodedParents, ih]

theorem decodedParents_getElem : ∀ (l : List SuccessionCharaData) (i j : Nat)
    (hj : j < (decodedParents i l).length) (hj2 : j < l.length),
    (decodedParents i l)[j]
      = { card_id := (l[j]).card_id, talent_level := (l[j]).talent_level,
          factor_id_array := (l[j]).factor_id_array.take 15,
          position_id := i + j + 1 } := by
  intro l
  induction l with
  | nil => intro i j hj hj2; simp at hj2
  | cons p ps ih =>
      intro i j hj hj2
      match j with
      | 0 => simp [decodedParents]
      | j + 1 =>
          have hj' : j < (decodedParents (i + 1) ps).length := by
            simp only [decodedParents, List.length_cons] at hj
            omega
          have hj2' : j < ps.length := by
            simp only [List.length_cons] at hj2
            omega
          show (decodedParents i (p :: ps))[j + 1] = _
          simp only [decodedParents, List.getElem_cons_succ]
          rw [ih (i + 1) j hj' hj2']
          have harith : i + 1 + j + 1 = i + (j + 1) + 1 := by omega
          rw [harith]

/-- Single-record round trip through the full collection codec. -/
theorem decodeCharas_encodeCharas_single (c : CharaData) (h : CharaEncodable c) :
    decodeCharas (encodeCharas [c]) = [decodedOf c] := by
  have := decodeCharas_encodeCharas [c] (by simpa using h)
  simpa using this

/-! ## Claim theorems -/

/-- C2: when `decodeChara` yields none for the current declared entry of the
`decodeCharas` loop, no record is appended for that entry or any later
declared entry, and the loop returns exactly the records decoded so far
(`acc`): a failing entry leaves the stream untouched, so every later entry
fails as well, making the continue-style loop extensionally an early stop. -/
theorem C2_decode_failure_stops (bv : BitVector) (acc : List CharaData)
    (n : Nat) (h : (decodeChara bv).1 = none) :
    decodeLoop bv acc n = acc :=
  decodeLoop_of_none n bv acc h

/-- Witness for C2 at a concrete empty stream and three declared entries. -/
theorem C2_witness :
    decodeLoop { bits := [], readPos := 0 } [] 3 = [] :=
  C2_decode_failure_stops { bits := [], readPos := 0 } [] 3 (by decide)

/-- The record with empty factor, skill and parent lists used to measure the
minimum encoded record size. -/
def emptyChara : CharaData :=
  { card_id := 0, talent_level := 1, rarity := 3,
    speed := 0, stamina := 0, power := 0, guts := 0, wiz := 0,
    proper_distance_short := 1, proper_distance_mile := 1,
    proper_distance_middle := 1, proper_distance_long := 1,
    proper_ground_turf := 1, proper_ground_dirt := 1,
    proper_running_style_nige := 1, proper_running_style_senko := 1,
    proper_running_style_sashi := 1, proper_running_style_oikomi := 1,
    factor_id_array := [], skill_array := [],
    succession_chara_array := [], support_card_list := [] }

/-- C3 counterexample: `encodeChara` on a record with zero factors, zero
skills and zero parents appends 120 bits, not 108 — the claim's "108 bits is
the minimum possible record size" is false on the code (108 counts only the
fixed fields, forgetting the three count fields: 4 + 6 + 2 bits). -/
theorem C3_counterexample :
    (encodeChara { bits := [], readPos := 0 } emptyChara).bits.length = 120 ∧
    (120 : Nat) ≠ 108 := by
  constructor
  · decide
  · decide

/-- C3 (amended): the minimum possible record size is 120 bits — a record
with zero factors, zero skills and zero parents appends exactly 120 bits and
every record appends at least 120 — while `decodeChara` returns none exactly
when fewer than 108 bits remain unread (the guard constant 108 understates
the true minimum record size). -/
theorem C3_min_record_size :
    (∀ (bv : BitVector) (c : CharaData),
      c.factor_id_array = [] → c.skill_array = [] →
      c.succession_chara_array = [] →
      (encodeChara bv c).bits.length = bv.bits.length + 120) ∧
    (∀ (bv : BitVector) (c : CharaData),
      bv.bits.length + 120 ≤ (encodeChara bv c).bits.length) ∧
    (∀ bv : BitVector, (decodeChara bv).1 = none ↔ bv.remaining < 108) := by
  refine ⟨?_, ?_, fun bv => decodeChara_none_iff bv⟩
  · intro bv c hf hs hp
    rw [encodeChara_eq]
    simp only [List.length_append, charaBits_length, hf, hs, hp]
    simp
  · intro bv c
    rw [encodeChara_eq]
    simp only [List.length_append]
    have := charaBits_length_ge c
    omega

/-- Witness for C3 (amended) at the concrete empty-list record and an empty
stream. -/
theorem C3_witness :
    (encodeChara { bits := [], readPos := 0 } emptyChara).bits.length
      = ({ bits := [], readPos := 0 } : BitVector).bits.length + 120 :=
  C3_min_record_size.1 { bits := [], readPos := 0 } emptyChara rfl rfl rfl

/-- C4: `decodeCharas` is a total function (the modelled body of the
source's `try/catch` never fails), and on the three degenerate inputs — the
empty string, a string with no alphabet characters, and a string encoding
fewer bits than the 16-bit header — it returns the empty sequence. -/
theorem C4_decode_total :
    decodeCharas "" = [] ∧
    (∀ s : String, (∀ c ∈ s.data, c ∉ base64Chars) → decodeCharas s = []) ∧
    (∀ s : String, (BitVector.fromBase64 s).bits.length < 16 →
      decodeCharas s = []) := by
  have hshort := decodeCharas_of_short
  refine ⟨?_, ?_, hshort⟩
  · exact hshort "" (by decide)
  · intro s hinv
    refine hshort s ?_
    rw [fromBase64_of_invalid s hinv]
    decide

/-- Witness for C4 on a concrete string of non-alphabet characters. -/
theorem C4_witness : decodeCharas "!*!" = [] :=
  C4_decode_total.2.1 "!*!" (by decide)

/-- C8: converting a string of alphabet characters whose length is a
multiple of 4 to bits and back to text returns the same string (the length
condition is stated by the claim; the proof does not even need it, since
every character contributes an aligned 6-bit group). -/
theorem C8_text_roundtrip (s : String)
    (hmem : ∀ c ∈ s.data, c ∈ base64Chars) (hlen : s.length % 4 = 0) :
    (BitVector.fromBase64 s).toBase64 = s :=
  toBase64_fromBase64 s hmem

/-- Witness for C8 at a concrete 4-character alphabet string. -/
theorem C8_witness : (BitVector.fromBase64 "Uma9").toBase64 = "Uma9" :=
  C8_text_roundtrip "Uma9" (by decide) (by decide)

/-- C9: a failing `decodeChara` (fewer than 108 bits remaining) consumes no
bits — the stream, its read cursor and its remaining count are unchanged —
and consequently the next call fails as well. -/
theorem C9_none_frame (bv : BitVector) (h : (decodeChara bv).1 = none) :
    (decodeChara bv).2 = bv ∧
    (decodeChara bv).2.readPos = bv.readPos ∧
    (decodeChara bv).2.remaining = bv.remaining ∧
    (decodeChara ((decodeChara bv).2)).1 = none := by
  have hlt : bv.remaining < 108 := (decodeChara_none_iff bv).mp h
  have heq := decodeChara_none_of_lt hlt
  rw [heq]
  exact ⟨rfl, rfl, rfl, h⟩

/-- Witness for C9 at a concrete 10-bit stream. -/
theorem C9_witness :
    (decodeChara { bits := List.replicate 10 false, readPos := 0 }).2
        = { bits := List.replicate 10 false, readPos := 0 } ∧
      (decodeChara { bits := List.replicate 10 false, readPos := 0 }).2.readPos
        = ({ bits := List.replicate 10 false, readPos := 0 } : BitVector).readPos ∧
      (decodeChara { bits := List.replicate 10 false, readPos := 0 }).2.remaining
        = ({ bits := List.replicate 10 false, readPos := 0 } : BitVector).remaining ∧
      (decodeChara ((decodeChara
          { bits := List.replicate 10 false, readPos := 0 }).2)).1 = none :=
  C9_none_frame { bits := List.replicate 10 false, readPos := 0 } (by decide)

/-- C5: on encode each of the five stats is clamped to at most 2047 before
being written as 11 bits and no lower clamp is applied (the decoded stat is
exactly `min stat 2047`); hence any stat above 2047 round-trips as 2047. -/
theorem C5_stat_clamp (c : CharaData) (h : CharaInRangeNoStats c) :
    ∃ d, decodeCharas (encodeCharas [c]) = [d] ∧
      d.speed = min c.speed 2047 ∧ d.stamina = min c.stamina 2047 ∧
      d.power = min c.power 2047 ∧ d.guts = min c.guts 2047 ∧
      d.wiz = min c.wiz 2047 ∧
      (2047 < c.speed → d.speed = 2047) ∧
      (2047 < c.stamina → d.stamina = 2047) ∧
      (2047 < c.power → d.power = 2047) ∧
      (2047 < c.guts → d.guts = 2047) ∧
      (2047 < c.wiz → d.wiz = 2047) := by
  refine ⟨decodedOf c, decodeCharas_encodeCharas_single c h.encodable,
    rfl, rfl, rfl, rfl, rfl, ?_, ?_, ?_, ?_, ?_⟩ <;>
    intro hgt <;> simp [decodedOf] <;> omega

/-- A record with every stat above 2047, used to witness the clamp. -/
def overStatChara : CharaData :=
  { emptyChara with
    card_id := 100101
    speed := 5000
    stamina := 4000
    power := 3000
    guts := 2048
    wiz := 9999 }

/-- Witness for C5 at a concrete record with stats above 2047 (e.g. 5000). -/
theorem C5_witness :
    ∃ d, decodeCharas (encodeCharas [overStatChara]) = [d] ∧
      d.speed = min overStatChara.speed 2047 ∧
      d.stamina = min overStatChara.stamina 2047 ∧
      d.power = min overStatChara.power 2047 ∧
      d.guts = min overStatChara.guts 2047 ∧
      d.wiz = min overStatChara.wiz 2047 ∧
      (2047 < overStatChara.speed → d.speed = 2047) ∧
      (2047 < overStatChara.stamina → d.stamina = 2047) ∧
      (2047 < overStatChara.power → d.power = 2047) ∧
      (2047 < overStatChara.guts → d.guts = 2047) ∧
      (2047 < overStatChara.wiz → d.wiz = 2047) :=
  C5_stat_clamp overStatChara (by decide)

/-- C6: the factor list is truncated to its first 15 entries on encode,
order preserved: a record with more than 15 factor ids round-trips with
exactly the first 15, in order. -/
theorem C6_factor_truncation (c : CharaData) (h : CharaEncodable c)
    (hlen : 15 < c.factor_id_array.length) :
    ∃ d, decodeCharas (encodeCharas [c]) = [d] ∧
      d.factor_id_array = c.factor_id_array.take 15 ∧
      d.factor_id_array.length = 15 := by
  refine ⟨decodedOf c, decodeCharas_encodeCharas_single c h, rfl, ?_⟩
  simp only [decodedOf, List.length_take]
  omega

/-- A record with 20 factor ids, used to witness the truncation. -/
def manyFactorChara : CharaData :=
  { emptyChara with
    factor_id_array :=
      [1, 2, 3, 4, 5, 6, 7, 8, 9, 10, 11, 12, 13, 14, 15, 16, 17, 18, 19, 20] }

/-- Witness for C6 at a concrete record with 20 factor ids. -/
theorem C6_witness :
    ∃ d, decodeCharas (encodeCharas [manyFactorChara]) = [d] ∧
      d.factor_id_array = manyFactorChara.factor_id_array.take 15 ∧
      d.factor_id_array.length = 15 :=
  C6_factor_truncation manyFactorChara (by decide) (by decide)

/-- C7: skill levels collapse to a binary flag: the encoder stores one bit
meaning "level greater than 1" and the decoder reconstructs 2 if it was set,
else 1 — so any level above 1 round-trips as exactly 2, and level 1 or less
round-trips as exactly 1. -/
theorem C7_skill_level_collapse (c : CharaData) (h : CharaEncodable c)
    (hlen : c.skill_array.length ≤ 63) :
    ∃ d, decodeCharas (encodeCharas [c]) = [d] ∧
      d.skill_array = c.skill_array.map
        (fun s => { skill_id := s.skill_id,
                    level := if 1 < s.level then 2 else 1 }) ∧
      ∀ j, ∀ hj : j < c.skill_array.length,
        ∃ hj2 : j < d.skill_array.length,
          ((d.skill_array[j]).skill_id = (c.skill_array[j]).skill_id ∧
           (1 < (c.skill_array[j]).level → (d.skill_array[j]).level = 2) ∧
           ((c.skill_array[j]).level ≤ 1 → (d.skill_array[j]).level = 1)) := by
  have hmap : (decodedOf c).skill_array = c.skill_array.map
      (fun s => { skill_id := s.skill_id,
                  level := if 1 < s.level then 2 else 1 }) := by
    simp only [decodedOf]
    rw [List.take_of_length_le hlen]
  refine ⟨decodedOf c, decodeCharas_encodeCharas_single c h, hmap, ?_⟩
  intro j hj
  have hj2 : j < (decodedOf c).skill_array.length := by
    rw [hmap, List.length_map]
    exact hj
  have hsj : (decodedOf c).skill_array[j]
      = { skill_id := (c.skill_array[j]).skill_id,
          level := if 1 < (c.skill_array[j]).level then 2 else 1 } := by
    have h1 := List.getElem?_eq_getElem hj2
    have h2 : (decodedOf c).skill_array[j]?
        = some { skill_id := (c.skill_array[j]).skill_id,
                 level := if 1 < (c.skill_array[j]).level then 2 else 1 } := by
      rw [hmap, List.getElem?_map, List.getElem?_eq_getElem hj]
      rfl
    rw [h2] at h1
    exact (Option.some.inj h1).symm
  refine ⟨hj2, ?_, ?_, ?_⟩
  · rw [hsj]
  · intro hgt
    rw [hsj]
    simp [hgt]
  · intro hle
    rw [hsj]
    have hn : ¬ 1 < (c.skill_array[j]).level := by omega
    simp [hn]

/-- A record with a level-5 skill and a level-1 skill, witnessing the
collapse. -/
def skillChara : CharaData :=
  { emptyChara with
    skill_array := [⟨2001, 5⟩, ⟨2002, 1⟩] }

/-- Witness for C7 at a concrete record with skill levels 5 and 1. -/
theorem C7_witness :
    ∃ d, decodeCharas (encodeCharas [skillChara]) = [d] ∧
      d.skill_array = skillChara.skill_array.map
        (fun s => { skill_id := s.skill_id,
                    level := if 1 < s.level then 2 else 1 }) ∧
      ∀ j, ∀ hj : j < skillChara.skill_array.length,
        ∃ hj2 : j < d.skill_array.length,
          ((d.skill_array[j]).skill_id = (skillChara.skill_array[j]).skill_id ∧
           (1 < (skillChara.skill_array[j]).level → (d.skill_array[j]).level = 2) ∧
           ((skillChara.skill_array[j]).level ≤ 1 → (d.skill_array[j]).level = 1)) :=
  C7_skill_level_collapse skillChara (by decide) (by decide)

set_option maxHeartbeats 1000000 in
/-- C1: for collections of records within the documented domain ranges,
decoding the encoded collection yields `min (length, 255)` records which
element-wise preserve card id, talent level, the five stats, the ten
aptitudes, the factor id list, the skill id list (levels collapsed to the
`> 1` flag: 2 if the original level exceeded 1, else 1), and each parent's
card id, talent level and factor id list exactly. -/
theorem C1_collection_roundtrip (l : List CharaData)
    (h : ∀ c ∈ l, CharaInRange c) :
    (decodeCharas (encodeCharas l)).length = min l.length 255 ∧
    ∀ i, ∀ hi : i < (decodeCharas (encodeCharas l)).length,
      ∃ hi2 : i < l.length,
        ((decodeCharas (encodeCharas l))[i]).card_id = (l[i]).card_id ∧
        ((decodeCharas (encodeCharas l))[i]).talent_level = (l[i]).talent_level ∧
        ((decodeCharas (encodeCharas l))[i]).speed = (l[i]).speed ∧
        ((decodeCharas (encodeCharas l))[i]).stamina = (l[i]).stamina ∧
        ((decodeCharas (encodeCharas l))[i]).power = (l[i]).power ∧
        ((decodeCharas (encodeCharas l))[i]).guts = (l[i]).guts ∧
        ((decodeCharas (encodeCharas l))[i]).wiz = (l[i]).wiz ∧
        ((decodeCharas (encodeCharas l))[i]).proper_distance_short = (l[i]).proper_distance_short ∧
        ((decodeCharas (encodeCharas l))[i]).proper_distance_mile = (l[i]).proper_distance_mile ∧
        ((decodeCharas (encodeCharas l))[i]).proper_distance_middle = (l[i]).proper_distance_middle ∧
        ((decodeCharas (encodeCharas l))[i]).proper_distance_long = (l[i]).proper_distance_long ∧
        ((decodeCharas (encodeCharas l))[i]).proper_ground_turf = (l[i]).proper_ground_turf ∧
        ((decodeCharas (encodeCharas l))[i]).proper_ground_dirt = (l[i]).proper_ground_dirt ∧
        ((decodeCharas (encodeCharas l))[i]).proper_running_style_nige = (l[i]).proper_running_style_nige ∧
        ((decodeCharas (encodeCharas l))[i]).proper_running_style_senko = (l[i]).proper_running_style_senko ∧
        ((decodeCharas (encodeCharas l))[i]).proper_running_style_sashi = (l[i]).proper_running_style_sashi ∧
        ((decodeCharas (encodeCharas l))[i]).proper_running_style_oikomi = (l[i]).proper_running_style_oikomi ∧
        ((decodeCharas (encodeCharas l))[i]).factor_id_array = (l[i]).factor_id_array ∧
        ((decodeCharas (encodeCharas l))[i]).skill_array = (l[i]).skill_array.map
          (fun s => { skill_id := s.skill_id,
                      level := if 1 < s.level then 2 else 1 }) ∧
        ((decodeCharas (encodeCharas l))[i]).succession_chara_array.length
            = (l[i]).succession_chara_array.length ∧
        ∀ j, ∀ hj : j < ((decodeCharas (encodeCharas l))[i]).succession_chara_array.length,
          ∃ hj2 : j < (l[i]).succession_chara_array.length,
            (((decodeCharas (encodeCharas l))[i]).succession_chara_array[j]).card_id
                = ((l[i]).succession_chara_array[j]).card_id ∧
            (((decodeCharas (encodeCharas l))[i]).succession_chara_array[j]).talent_level
                = ((l[i]).succession_chara_array[j]).talent_level ∧
            (((decodeCharas (encodeCharas l))[i]).succession_chara_array[j]).factor_id_array
                = ((l[i]).succession_chara_array[j]).factor_id_array := by
  have henc : ∀ c ∈ l, CharaEncodable c := fun c hc => (h c hc).1.encodable
  have hmain := decodeCharas_encodeCharas l henc
  have hlen : (decodeCharas (encodeCharas l)).length = min l.length 255 := by
    rw [hmain, List.length_map, List.length_take]
    omega
  refine ⟨hlen, ?_⟩
  intro i hi
  have hi2 : i < l.length := by rw [hlen] at hi; omega
  have hi255 : i < 255 := by rw [hlen] at hi; omega
  have hgi : (decodeCharas (encodeCharas l))[i] = decodedOf (l[i]) := by
    have h1 := List.getElem?_eq_getElem hi
    have h2 : (decodeCharas (encodeCharas l))[i]? = some (decodedOf (l[i])) := by
      rw [hmain, List.getElem?_map, List.getElem?_take, if_pos hi255,
        List.getElem?_eq_getElem hi2]
      rfl
    rw [h2] at h1
    exact (Option.some.inj h1).symm
  obtain ⟨⟨hcard, htl1, htl5, ha1, ha2, ha3, ha4, ha5, ha6, ha7, ha8, ha9,
    ha10, hflen, hfids, hslen, hsids, hplen, hpar⟩,
    hst1, hst2, hst3, hst4, hst5⟩ := h (l[i]) (List.getElem_mem hi2)
  have harr : (decodedOf (l[i])).succession_chara_array
      = decodedParents 0 ((l[i]).succession_chara_array) := by
    simp only [decodedOf]
    rw [List.take_of_length_le hplen]
  refine ⟨hi2, ?_, ?_, ?_, ?_, ?_, ?_, ?_, ?_, ?_, ?_, ?_, ?_, ?_, ?_, ?_,
    ?_, ?_, ?_, ?_, ?_, ?_⟩
  · simp [hgi, decodedOf]
  · simp [hgi, decodedOf]
  · simp [hgi, decodedOf]
    omega
  · simp [hgi, decodedOf]
    omega
  · simp [hgi, decodedOf]
    omega
  · simp [hgi, decodedOf]
    omega
  · simp [hgi, decodedOf]
    omega
  · simp [hgi, decodedOf]
  · simp [hgi, decodedOf]
  · simp [hgi, decodedOf]
  · simp [hgi, decodedOf]
  · simp [hgi, decodedOf]
  · simp [hgi, decodedOf]
  · simp [hgi, decodedOf]
  · simp [hgi, decodedOf]
  · simp [hgi, decodedOf]
  · simp [hgi, decodedOf]
  · simp [hgi, decodedOf, List.take_of_length_le hflen]
  · simp [hgi, decodedOf, List.take_of_length_le hslen]
  · simp [hgi, harr, decodedParents_length]
  · intro j hj
    have hj2 := hj
    rw [hgi, harr, decodedParents_length] at hj2
    have hdp : j < (decodedParents 0 ((l[i]).succession_chara_array)).length := by
      rw [decodedParents_length]
      exact hj2
    have hpe := decodedParents_getElem ((l[i]).succession_chara_array) 0 j hdp hj2
    have h1 := List.getElem?_eq_getElem hj
    have h2 : (((decodeCharas (encodeCharas l))[i]).succession_chara_array)[j]?
        = some { card_id := ((l[i]).succession_chara_array[j]).card_id,
                 talent_level := ((l[i]).succession_chara_array[j]).talent_level,
                 factor_id_array :=
                   ((l[i]).succession_chara_array[j]).factor_id_array.take 15,
                 position_id := 0 + j + 1 } := by
      rw [hgi, harr, List.getElem?_eq_getElem hdp, hpe]
    rw [h2] at h1
    have hval := (Option.some.inj h1).symm
    obtain ⟨-, -, -, hpf, -⟩ :=
      hpar ((l[i]).succession_chara_array[j]) (List.getElem_mem hj2)
    refine ⟨hj2, ?_, ?_, ?_⟩
    · rw [hval]
    · rw [hval]
    · rw [hval]
      exact List.take_of_length_le hpf

/-- A fully featured in-range record used to witness C1. -/
def c1sample : CharaData :=
  { card_id := 100201, talent_level := 4, rarity := 3,
    speed := 1200, stamina := 900, power := 1000, guts := 400, wiz := 700,
    proper_distance_short := 1, proper_distance_mile := 2,
    proper_distance_middle := 8, proper_distance_long := 7,
    proper_ground_turf := 8, proper_ground_dirt := 3,
    proper_running_style_nige := 4, proper_running_style_senko := 5,
    proper_running_style_sashi := 6, proper_running_style_oikomi := 1,
    factor_id_array := [201, 90005, 16000000],
    skill_array := [⟨2001, 1⟩, ⟨40000, 5⟩],
    succession_chara_array := [⟨100102, 2, [7, 8], 9⟩, ⟨100103, 5, [], 0⟩],
    support_card_list := [] }

/-- Witness for C1 at a concrete singleton collection. -/
theorem C1_witness :
    (decodeCharas (encodeCharas [c1sample])).length
      = min ([c1sample] : List CharaData).length 255 :=
  (C1_collection_roundtrip [c1sample] (by decide)).1

/-- C10: whatever the input string, every decoded record is structurally
complete and in range — talent level and all ten aptitudes in [1, 8], all
five stats at most 2047, every skill level 1 or 2, at most 15 factors, at
most 63 skills, at most 3 parents each carrying its 1-based position,
rarity 3 and an empty support-card list — and at most 255 records are
returned (see `DecodedWF`). -/
theorem C10_decoded_invariants (s : String) :
    (∀ d ∈ decodeCharas s, DecodedWF d) ∧ (decodeCharas s).length ≤ 255 :=
  decodeCharas_wf s

/-- A record used to witness C10 through the real pipeline. -/
def c10sample : CharaData :=
  { emptyChara with
    card_id := 100301
    speed := 600
    skill_array := [⟨777, 3⟩]
    succession_chara_array := [⟨100104, 1, [42], 0⟩] }

set_option maxRecDepth 10000 in
/-- Witness for C10 at a concrete decoded record. -/
theorem C10_witness :
    DecodedWF (decodedOf c10sample) ∧
    (decodeCharas (encodeCharas [c10sample])).length ≤ 255 :=
  ⟨(C10_decoded_invariants (encodeCharas [c10sample])).1 (decodedOf c10sample)
      (by decide),
   (C10_decoded_invariants (encodeCharas [c10sample])).2⟩

end UmaRoster
